import Mathlib

/-!
Shallow embedding of the khori-backend server (src/routes.ts, src/storage.ts)
and proofs about its HTTP and WebSocket handlers.

Records are modelled as Lean structures mirroring the drizzle schema rows;
database tables are lists of rows in insertion order; JavaScript truthiness
on optional strings and numbers is made explicit via helper functions.
-/

namespace Khori

/-- JavaScript truthiness of an optional string: `undefined`/`null` and the
empty string are falsy, every other string is truthy. -/
def strTruthy : Option String → Bool
  | none => false
  | some s => s != ""

/-- A board (room) row, with the fields the password and recording routes read. -/
structure Board where
  id : String
  roomCode : String
  creatorId : String
  lecturerId : Option String
  password : Option String
  isPublic : Bool
  isEnded : Bool
deriving DecidableEq, Repr

/-- Response body of POST /api/boards/:roomCode/validate-password: the route
returns `valid` always, and `hasPassword` / `isCreator` only on some branches
(absent JSON fields are `none`). -/
structure PasswordValidation where
  valid : Bool
  hasPassword : Option Bool
  isCreator : Option Bool
deriving DecidableEq, Repr

/-- The body of the POST /api/boards/:roomCode/validate-password handler
(src/routes.ts lines 1323-1357), after the board has been resolved by room
code. Checks, in order: no stored password, creator/lecturer bypass, and
plain-text password comparison. -/
def validatePassword (board : Board) (callerId : String) (reqPassword : Option String) :
    PasswordValidation :=
  if !(strTruthy board.password) then
    ⟨true, some false, none⟩
  else if board.creatorId == callerId || board.lecturerId == some callerId then
    ⟨true, none, some true⟩
  else if reqPassword == board.password then
    ⟨true, none, none⟩
  else
    ⟨false, some true, none⟩

/-- Outcome of POST /api/boards/:roomCode/password (src/routes.ts lines
1290-1320): either a 403, or the pair of fields written through
`storage.updateBoard`. -/
inductive SetPasswordResult where
  | forbidden
  | updated (password : Option String) (isPublic : Bool)
deriving DecidableEq, Repr

/-- The body of the POST /api/boards/:roomCode/password handler after board
resolution: creator/lecturer only; stores `password || null` and
`isPublic: !password`. -/
def setRoomPassword (board : Board) (callerId : String) (reqPassword : Option String) :
    SetPasswordResult :=
  if board.creatorId == callerId || board.lecturerId == some callerId then
    .updated (if strTruthy reqPassword then reqPassword else none) (!(strTruthy reqPassword))
  else
    .forbidden

/-! ## Lecture recording stop (POST /api/audio/stop) -/

/-- A lecture_recordings row. Statuses are the literal strings used by the
source: "recording", "completed", "transcribed". -/
structure LectureRecording where
  id : String
  boardId : String
  lecturerId : String
  status : String
  audioData : Option String
  durationMs : Option Nat
  endedAt : Option Nat
deriving DecidableEq, Repr

/-- A lecture_transcripts row as created by `storage.createLectureTranscript`. -/
structure LectureTranscript where
  recordingId : String
  transcriptText : String
deriving DecidableEq, Repr

/-- The placeholder transcript text written when the external transcription
call throws (src/routes.ts line 1521). -/
def failurePlaceholder : String := "[Transcription failed - audio was saved]"

/-- `storage.getLectureRecording`: select by id. -/
def getLectureRecording (recs : List LectureRecording) (id : String) :
    Option LectureRecording :=
  recs.find? (fun r => r.id == id)

/-- Observable outcome of the stop-recording request: HTTP status, the
recording row as finally stored, and the transcript row created (if any). -/
structure StopOutcome where
  httpStatus : Nat
  finalRecording : Option LectureRecording
  transcript : Option LectureTranscript
deriving DecidableEq, Repr

/-- POST /api/audio/stop (src/routes.ts lines 1481-1541). The external
transcription call is passed in as an `Except`: `.error` models the promise
rejecting. The handler first stores status "completed" with the audio
payload, then derives the transcript text (placeholder on failure), creates
the transcript row, and finally updates the status to "transcribed". -/
def stopRecording (recs : List LectureRecording) (callerId : String)
    (recordingId audioData : Option String) (durationMs : Option Nat)
    (transcription : Except String String) (now : Nat) : StopOutcome :=
  if !(strTruthy recordingId) || !(strTruthy audioData) then
    ⟨400, none, none⟩
  else
    match getLectureRecording recs (recordingId.getD "") with
    | none => ⟨404, none, none⟩
    | some recording =>
      if recording.lecturerId != callerId then
        ⟨403, none, none⟩
      else
        let completed : LectureRecording :=
          { recording with
              status := "completed"
              audioData := audioData
              durationMs := some (durationMs.getD 0)
              endedAt := some now }
        let transcriptText :=
          match transcription with
          | .ok t => t
          | .error _ => failurePlaceholder
        let transcriptRow : LectureTranscript :=
          ⟨recordingId.getD "", transcriptText⟩
        let transcribed : LectureRecording := { completed with status := "transcribed" }
        ⟨200, some transcribed, some transcriptRow⟩

/-! ## Quiz sessions, responses and leaderboards -/

/-- A quiz_sessions row (the fields the live handlers read). -/
structure QuizSessionRow where
  id : String
  boardId : String
  quizId : String
  status : String
deriving DecidableEq, Repr

/-- A quizzes row (the fields the quiz:response handler reads). -/
structure QuizRow where
  id : String
  correctAnswer : String
deriving DecidableEq, Repr

/-- A quiz_responses row. `updatedAt` is the timestamp written at insert and
rewritten on every overwrite. -/
structure QuizResponseRow where
  id : String
  sessionId : String
  participantId : String
  participantName : String
  answer : Option String
  isCorrect : Bool
  updatedAt : Nat
deriving DecidableEq, Repr

/-- `storage.getQuizResponse`: first row matching (sessionId, participantId). -/
def getQuizResponse (rows : List QuizResponseRow) (sid pid : String) :
    Option QuizResponseRow :=
  rows.find? (fun r => r.sessionId == sid && r.participantId == pid)

/-- `storage.getQuizResponses` (src/storage.ts lines 337-339): select by
sessionId with NO order-by clause; the table's stored order is returned. -/
def getQuizResponses (rows : List QuizResponseRow) (sid : String) :
    List QuizResponseRow :=
  rows.filter (fun r => r.sessionId == sid)

/-- `storage.upsertQuizResponse` (src/storage.ts lines 386-400): if a row for
(sessionId, participantId) exists, rewrite its answer, isCorrect and
updatedAt in place (update keyed by the existing row's id); otherwise insert
a fresh row. -/
def upsertQuizResponse (rows : List QuizResponseRow) (freshId sid pid name : String)
    (answer : String) (isCorrect : Bool) (now : Nat) : List QuizResponseRow :=
  match getQuizResponse rows sid pid with
  | some existing =>
    rows.map (fun r =>
      if r.id == existing.id then
        { r with answer := some answer, isCorrect := isCorrect, updatedAt := now }
      else r)
  | none =>
    rows ++ [⟨freshId, sid, pid, name, some answer, isCorrect, now⟩]

/-- The quiz:response WebSocket handler (src/routes.ts lines 2821-2864): look
up the session, require status "active", look up the quiz, compute isCorrect
by strict string equality, and upsert. Returns the quiz_responses table after
the message. -/
def handleQuizResponse (sessions : List QuizSessionRow) (quizzes : List QuizRow)
    (rows : List QuizResponseRow) (freshId sid pid : String)
    (participantName : Option String) (answer : String) (now : Nat) :
    List QuizResponseRow :=
  match sessions.find? (fun s => s.id == sid) with
  | none => rows
  | some session =>
    if session.status != "active" then rows
    else
      match quizzes.find? (fun q => q.id == session.quizId) with
      | none => rows
      | some quiz =>
        let name := if strTruthy participantName then participantName.getD "" else pid
        upsertQuizResponse rows freshId sid pid name answer (answer == quiz.correctAnswer) now

/-- The quiz:showLeaderboard handler's broadcast payload (src/routes.ts lines
2906-2943): filter the session's responses to the correct ones, take the
first five in retrieval order, and keep only the participant names. -/
def showLeaderboard (rows : List QuizResponseRow) (sid : String) : List String :=
  let responses := getQuizResponses rows sid
  let correct := responses.filter (fun r => r.isCorrect)
  (correct.take 5).map (fun r => r.participantName)

/-- Insert a response into a list sorted by ascending updatedAt, after any
element with an earlier-or-equal timestamp (stable). -/
def insertByTime (x : QuizResponseRow) : List QuizResponseRow → List QuizResponseRow
  | [] => [x]
  | y :: ys => if y.updatedAt ≤ x.updatedAt then y :: insertByTime x ys else x :: y :: ys

/-- Stable insertion sort of responses by ascending updatedAt. -/
def sortByTime (l : List QuizResponseRow) : List QuizResponseRow :=
  l.foldl (fun acc x => insertByTime x acc) []

/-- Modelled from the spec claim (not from the source): the leaderboard the
claim describes, with the correct respondents ordered by earliest submission
time (ascending updatedAt) before truncation to five names. -/
def claimedLeaderboard (rows : List QuizResponseRow) (sid : String) : List String :=
  let correct := (getQuizResponses rows sid).filter (fun r => r.isCorrect)
  ((sortByTime correct).take 5).map (fun r => r.participantName)

/-! ## Cumulative leaderboard (quiz:showCumulativeLeaderboard) -/

/-- One entry of the in-memory `scoreMap` of the cumulative-leaderboard
handler: participantId key, display name, and count of correct answers. -/
structure ScoreEntry where
  pid : String
  name : String
  correct : Nat
deriving DecidableEq, Repr

/-- One step of the handler's aggregation loop for a correct response:
increment the existing entry's count (leaving its name untouched), or append
a fresh entry with count 1 (JS Map preserves insertion order). -/
def bumpScore (acc : List ScoreEntry) (pid name : String) : List ScoreEntry :=
  if acc.any (fun e => e.pid == pid) then
    acc.map (fun e => if e.pid == pid then { e with correct := e.correct + 1 } else e)
  else
    acc ++ [⟨pid, name, 1⟩]

/-- The aggregation loop over all of the board's responses (src/routes.ts
lines 3046-3058): only correct responses contribute. -/
def accumScores : List QuizResponseRow → List ScoreEntry → List ScoreEntry
  | [], acc => acc
  | r :: rs, acc =>
    accumScores rs (if r.isCorrect then bumpScore acc r.participantId r.participantName else acc)

/-- Insert an entry into a list sorted by descending correct count, after any
entry with a greater-or-equal count (JS `Array.prototype.sort` is stable). -/
def insertByCorrect (x : ScoreEntry) : List ScoreEntry → List ScoreEntry
  | [] => [x]
  | y :: ys => if x.correct ≤ y.correct then y :: insertByCorrect x ys else x :: y :: ys

/-- Stable sort of score entries by descending correct count, mirroring
`.sort((a, b) => b.correct - a.correct)`. -/
def sortByCorrectDesc (l : List ScoreEntry) : List ScoreEntry :=
  l.foldl (fun acc x => insertByCorrect x acc) []

/-- `storage.getQuizResponsesByBoardId` (src/storage.ts lines 374-384): the
responses of every session of the board, in table order (no order-by). -/
def getQuizResponsesByBoardId (sessions : List QuizSessionRow)
    (rows : List QuizResponseRow) (boardId : String) : List QuizResponseRow :=
  let sessionIds := (sessions.filter (fun s => s.boardId == boardId)).map (fun s => s.id)
  rows.filter (fun r => sessionIds.contains r.sessionId)

/-- The quiz:showCumulativeLeaderboard broadcast payload (src/routes.ts lines
3023-3086): aggregate correct counts per participant, sort by count
descending, truncate to five, and expose (name, score) pairs. -/
def showCumulativeLeaderboard (sessions : List QuizSessionRow)
    (rows : List QuizResponseRow) (boardId : String) : List (String × Nat) :=
  let allResponses := getQuizResponsesByBoardId sessions rows boardId
  let sorted := sortByCorrectDesc (accumScores allResponses [])
  (sorted.take 5).map (fun e => (e.name, e.correct))

/-- Modelled from the spec claim (not from the source): the same aggregation
but retaining the LAST-seen participantName for each participantId, as the
claim states. -/
def bumpScoreLastSeen (acc : List ScoreEntry) (pid name : String) : List ScoreEntry :=
  if acc.any (fun e => e.pid == pid) then
    acc.map (fun e => if e.pid == pid then { e with name := name, correct := e.correct + 1 } else e)
  else
    acc ++ [⟨pid, name, 1⟩]

/-- Modelled from the spec claim (not from the source): aggregation loop with
last-seen names. -/
def accumScoresLastSeen : List QuizResponseRow → List ScoreEntry → List ScoreEntry
  | [], acc => acc
  | r :: rs, acc =>
    accumScoresLastSeen rs
      (if r.isCorrect then bumpScoreLastSeen acc r.participantId r.participantName else acc)

/-- Modelled from the spec claim (not from the source): the cumulative
leaderboard as the claim words it, with last-seen names. -/
def claimedCumulativeLeaderboard (sessions : List QuizSessionRow)
    (rows : List QuizResponseRow) (boardId : String) : List (String × Nat) :=
  let allResponses := getQuizResponsesByBoardId sessions rows boardId
  let sorted := sortByCorrectDesc (accumScoresLastSeen allResponses [])
  (sorted.take 5).map (fun e => (e.name, e.correct))

/-- Number of correct responses by a participant in a response list. -/
def countCorrect (rows : List QuizResponseRow) (pid : String) : Nat :=
  (rows.filter (fun r => r.isCorrect && r.participantId == pid)).length

/-- The participantName on a participant's first correct response in a list. -/
def firstCorrectName (rows : List QuizResponseRow) (pid : String) : Option String :=
  (rows.find? (fun r => r.isCorrect && r.participantId == pid)).map
    (fun r => r.participantName)

/-! ## Teacher performance (GET /api/teacher-performance/:teacherId) -/

/-- `Array.from(new Set(list))`: first-occurrence-order deduplication. -/
def dedup (l : List String) : List String :=
  l.foldl (fun acc x => if acc.contains x then acc else acc ++ [x]) []

/-- A board_data row; `linesData` is the opaque list of drawing primitives,
of which only `Array.isArray(...) && length > 0` is inspected. -/
structure BoardDataRow where
  boardId : String
  userId : String
  linesData : List String
deriving DecidableEq, Repr

/-- `JavaScript Math.round` on a non-negative rational: round half toward
positive infinity. -/
def jsRound (q : ℚ) : ℤ := ⌊q + 1/2⌋

/-- The per-board block computed by GET /api/teacher-performance/:teacherId
(src/routes.ts lines 1112-1206). -/
structure TeacherPerf where
  studentCount : Nat
  quizCount : Nat
  attempted : Nat
  twoWay : Nat
  quizScore : ℤ
  twoWayScore : ℤ
  participationScore : ℤ
deriving DecidableEq, Repr

/-- Whether a user has at least one drawing primitive on the board
(`allBoardData.find(...)` then `Array.isArray(linesData) && length > 0`). -/
def hasWritten (boardData : List BoardDataRow) (userId : String) : Bool :=
  match boardData.find? (fun bd => bd.userId == userId) with
  | none => false
  | some bd => bd.linesData.length > 0

/-- The per-board teacher-performance computation (src/routes.ts lines
1112-1206): `attendanceStudentIds` are the studentIds of the board's
student_attendance rows, `sessions` the board's quiz sessions, `rows` the
quiz_responses table, `boardData` the board's board_data rows. quizScore is
computed only when both studentCount and quizCount are positive; twoWayScore
only when studentCount is positive. -/
def computePerf (teacherId : String) (attendanceStudentIds : List String)
    (sessions : List QuizSessionRow) (rows : List QuizResponseRow)
    (boardData : List BoardDataRow) : TeacherPerf :=
  let uniqueStudents := dedup attendanceStudentIds
  let quizCount := sessions.length
  let attempted :=
    (dedup ((sessions.map (fun s => (getQuizResponses rows s.id).map
      (fun r => r.participantId))).flatten)).length
  let teacherHasWritten := hasWritten boardData teacherId
  let twoWay := (uniqueStudents.filter
    (fun sid => hasWritten boardData sid && teacherHasWritten)).length
  let studentCount := uniqueStudents.length
  let quizScore : ℤ :=
    if 0 < studentCount ∧ 0 < quizCount then
      jsRound ((attempted : ℚ) / (studentCount : ℚ) * 50)
    else 0
  let twoWayScore : ℤ :=
    if 0 < studentCount then
      jsRound ((twoWay : ℚ) / (studentCount : ℚ) * 50)
    else 0
  ⟨studentCount, quizCount, attempted, twoWay, quizScore, twoWayScore,
    quizScore + twoWayScore⟩

/-! ## Student attendance join (POST /api/student-performance/attendance) -/

/-- A student_attendance row. -/
structure AttendanceRow where
  id : String
  boardId : String
  studentId : String
  joinedAt : Nat
  leftAt : Option Nat
  timeSpentSeconds : Nat
deriving DecidableEq, Repr

/-- Fold the latest-joined row out of a list, keeping the earlier row on
timestamp ties (mirrors `orderBy(desc(joinedAt)).limit(1)` over table order). -/
def pickLatest (best : AttendanceRow) : List AttendanceRow → AttendanceRow
  | [] => best
  | r :: rs => pickLatest (if best.joinedAt < r.joinedAt then r else best) rs

/-- `storage.getActiveAttendance` (src/storage.ts lines 472-482): the most
recently joined row for (boardId, studentId) — with no filter on leftAt. -/
def getActiveAttendance (rows : List AttendanceRow) (bid sid : String) :
    Option AttendanceRow :=
  match rows.filter (fun r => r.boardId == bid && r.studentId == sid) with
  | [] => none
  | r :: rs => some (pickLatest r rs)

/-- POST /api/student-performance/attendance (src/routes.ts lines 1008-1038):
return the active row if it is open (`existing && !existing.leftAt`), else
insert a fresh row with joinedAt = now. Returns the row sent back to the
client and the table afterwards. -/
def joinAttendance (rows : List AttendanceRow) (freshId bid sid : String) (now : Nat) :
    AttendanceRow × List AttendanceRow :=
  match getActiveAttendance rows bid sid with
  | some existing =>
    if existing.leftAt = none then (existing, rows)
    else
      let nr : AttendanceRow := ⟨freshId, bid, sid, now, none, 0⟩
      (nr, rows ++ [nr])
  | none =>
    let nr : AttendanceRow := ⟨freshId, bid, sid, now, none, 0⟩
    (nr, rows ++ [nr])

/-- The row update applied by `storage.updateStudentAttendance`: set
leftAt = now and the client-reported timeSpentSeconds on the row with the
given id. -/
def leaveUpd (rid : String) (now timeSpent : Nat) (r : AttendanceRow) : AttendanceRow :=
  if r.id == rid then { r with leftAt := some now, timeSpentSeconds := timeSpent } else r

/-- PATCH /api/student-performance/attendance/:id (src/routes.ts lines
1041-1060): update the row with the given id. -/
def leaveAttendance (rows : List AttendanceRow) (rid : String) (now timeSpent : Nat) :
    List AttendanceRow :=
  rows.map (leaveUpd rid now timeSpent)

/-- Reachable-state invariant of the attendance table: ids are unique (the
id column is the primary key), and an open row (no leftAt) for a
(board, student) pair joined strictly later than every other row of that
pair. It holds for every table produced by the join/leave endpoints, since a
new row is only inserted when the latest row of the pair is closed. -/
def AttendanceInv (rows : List AttendanceRow) : Prop :=
  (rows.map (fun r => r.id)).Nodup ∧
  ∀ r ∈ rows, r.leftAt = none →
    ∀ s ∈ rows, s ≠ r → s.boardId = r.boardId → s.studentId = r.studentId →
      s.joinedAt < r.joinedAt

instance (rows : List AttendanceRow) : Decidable (AttendanceInv rows) := by
  unfold AttendanceInv
  infer_instance

/-! ## Understanding score (POST .../participants/:participantRowId/score) -/

/-- An ai_chat_messages row (only role and content are read by the scorer). -/
structure ChatMessage where
  role : String
  content : String
deriving DecidableEq, Repr

/-- The fields of the object extracted by `JSON.parse` from the model output
that the scorer reads; a missing field is `none`. Scores are integers (the
route's arithmetic is exact on integers). -/
structure ParsedScore where
  score : Option Int
  feedback : Option String
deriving DecidableEq, Repr

/-- The substring captured by the non-greedy regex over the raw model output:
from the first opening brace to the next closing brace after it, or `none`
when no such pair exists. -/
def findJsonObject (raw : String) : Option String :=
  let chars := raw.toList
  match chars.findIdx? (fun c => c = '\x7b') with
  | none => none
  | some i =>
    let rest := chars.drop i
    match rest.findIdx? (fun c => c = '\x7d') with
    | none => none
    | some j => some (String.mk (rest.take (j + 1)))

/-- The fixed feedback for an empty conversation (src/routes.ts line 2012). -/
def noConversationFeedback : String := "No conversation took place."

/-- The default feedback used when parsing fails (src/routes.ts line 2071). -/
def genericFeedback : String := "Thank you for participating in the discussion."

/-- Observable outcome of the scoring route: HTTP success, the response
score/feedback, and the status/score persisted on the participant row. -/
structure ScoreOutcome where
  httpStatus : Nat
  score : Int
  feedback : String
  participantStatus : String
  participantScore : Int
deriving DecidableEq, Repr

/-- POST /api/chat/sessions/:sessionId/participants/:participantRowId/score
(src/routes.ts lines 1983-2097), after the participant row is resolved.
`parseJson` stands for `JSON.parse` (`none` models a throw); the AI call's
raw text output is `raw`. `parsed.score || 50` makes a stored score of 0 (or
a missing one) fall back to 50 before clamping; `parsed.feedback || feedback`
keeps the default on a falsy feedback. -/
def computeUnderstandingScore (messages : List ChatMessage) (raw : String)
    (parseJson : String → Option ParsedScore) : ScoreOutcome :=
  if messages.length = 0 then
    ⟨200, 0, noConversationFeedback, "completed", 0⟩
  else
    let defaults : Int × String := (50, genericFeedback)
    let result :=
      match findJsonObject raw with
      | none => defaults
      | some sub =>
        match parseJson sub with
        | none => defaults
        | some parsed =>
          let rawScore : Int :=
            match parsed.score with
            | some n => if n = 0 then 50 else n
            | none => 50
          let score := max 0 (min 100 rawScore)
          let feedback :=
            match parsed.feedback with
            | some f => if f = "" then genericFeedback else f
            | none => genericFeedback
          (score, feedback)
    ⟨200, result.1, result.2, "completed", result.1⟩

/-- The clamp the claim describes: the parsed score restricted to [0, 100]. -/
def clampScore (n : Int) : Int := max 0 (min 100 n)

/-! ## Disconnect grace-period timer (ws close handler) -/

/-- An in-memory room participant (the fields the close path reads).
`wsOpen` models `ws.readyState === WebSocket.OPEN`. -/
structure WsParticipant where
  id : String
  name : String
  isAdmin : Bool
  wsOpen : Bool
deriving DecidableEq, Repr

/-- The process-wide in-memory real-time state: the room registry (room code
to participant list, keyed by participant id) and the per-room focus state. -/
structure RtState where
  rooms : List (String × List WsParticipant)
  focus : List (String × Option String)
deriving DecidableEq, Repr

/-- Look up a room by code (JS `Map.get`). -/
def lookupRoom (rooms : List (String × List WsParticipant)) (code : String) :
    Option (List WsParticipant) :=
  (rooms.find? (fun kv => kv.1 == code)).map (fun kv => kv.2)

/-- Outcome of the grace timer firing: the registry and focus maps
afterwards, the board row afterwards, and the (recipient id, message type)
broadcasts sent. -/
structure FireOutcome where
  state : RtState
  board : Option Board
  broadcasts : List (String × String)
deriving DecidableEq, Repr

/-- The disconnect grace-period timer body (src/routes.ts lines 3124-3177):
if the participant is still in the room and their socket is not open, delete
them; if the departing participant was admin AND the room still has members,
persist isEnded on the board and broadcast sessionState; broadcast userLeft
to the remaining open sockets; drop the room from the registry when empty.
The focus map is untouched. -/
def fireDisconnectTimer (st : RtState) (board : Option Board)
    (roomCode pid : String) (wasAdmin : Bool) : FireOutcome :=
  match lookupRoom st.rooms roomCode with
  | none => ⟨st, board, []⟩
  | some room =>
    match room.find? (fun p => p.id == pid) with
    | none => ⟨st, board, []⟩
    | some p =>
      if p.wsOpen then ⟨st, board, []⟩
      else
        let room' := room.filter (fun q => q.id != pid)
        let endedPart : Option Board × List (String × String) :=
          if wasAdmin && decide (0 < room'.length) then
            (board.map (fun b => { b with isEnded := true }),
             (room'.filter (fun q => q.wsOpen)).map (fun q => (q.id, "sessionState")))
          else (board, [])
        let leftBroadcasts :=
          (room'.filter (fun q => q.wsOpen)).map (fun q => (q.id, "userLeft"))
        let rooms' :=
          if room'.length = 0 then st.rooms.filter (fun kv => kv.1 != roomCode)
          else st.rooms.map (fun kv => if kv.1 == roomCode then (kv.1, room') else kv)
        ⟨⟨rooms', st.focus⟩, endedPart.1, endedPart.2 ++ leftBroadcasts⟩

/-- A board with no stored password, used to refute the unconditional
creator-bypass reading of password validation. -/
def c2Board : Board :=
  ⟨"board-2", "ROOMCODE2", "creator-2", none, none, true, false⟩

/-- The recording used to exercise the stop-recording handler. -/
def c1Recording : LectureRecording :=
  ⟨"rec-1", "board-1", "lect-1", "recording", none, none, none⟩

/-- A parse oracle that extracts a score of 0 with a feedback sentence, used
to refute the clamping claim. -/
def c8ParseZero : String → Option ParsedScore :=
  fun _ => some ⟨some 0, some "The student showed little understanding."⟩

/-- A parse oracle extracting a score above the upper clamp bound. -/
def c8ParseBig : String → Option ParsedScore :=
  fun _ => some ⟨some 150, some "Excellent grasp of the lecture."⟩

/-- Number of stored response rows for a (sessionId, participantId) key. -/
def countKey (rows : List QuizResponseRow) (sid pid : String) : Nat :=
  rows.countP (fun r => r.sessionId == sid && r.participantId == pid)

/-- A response table built through the quiz:response handler: Alice answers
wrong at t=1, Bob answers right at t=2, Alice resubmits right at t=3. Her
row keeps its original table position but carries the latest updatedAt. -/
def c4Rows : List QuizResponseRow :=
  handleQuizResponse [⟨"s1", "b1", "q1", "active"⟩] [⟨"q1", "x"⟩]
    (handleQuizResponse [⟨"s1", "b1", "q1", "active"⟩] [⟨"q1", "x"⟩]
      (handleQuizResponse [⟨"s1", "b1", "q1", "active"⟩] [⟨"q1", "x"⟩] []
        "r1" "s1" "alice" (some "Alice") "y" 1)
      "r2" "s1" "bob" (some "Bob") "x" 2)
    "r3" "s1" "alice" (some "Alice") "x" 3

/-- Invariant of the cumulative-leaderboard aggregation loop: after
processing `seen`, every map entry carries its participant's correct count
over `seen` and the name from that participant's first correct response, and
every participant with a correct response in `seen` has an entry. -/
def GoodAcc (seen : List QuizResponseRow) (acc : List ScoreEntry) : Prop :=
  (∀ e ∈ acc, 1 ≤ e.correct ∧ e.correct = countCorrect seen e.pid ∧
    firstCorrectName seen e.pid = some e.name) ∧
  (∀ pid, 1 ≤ countCorrect seen pid → ∃ e ∈ acc, e.pid = pid)

/-- Descending sortedness of score entries by correct count. -/
def SortedDesc (l : List ScoreEntry) : Prop :=
  l.Pairwise (fun a b => b.correct ≤ a.correct)

/-- The room registry and board used to refute the unconditional
mark-room-ended reading of the admin disconnect timer. -/
def c9State : RtState :=
  ⟨[("ROOM", [⟨"a", "Alice", true, false⟩])], [("ROOM", some "a")]⟩

/-- The board of that room, not yet ended. -/
def c9Board : Board := ⟨"b9", "ROOM", "a", none, none, true, false⟩

/-- The registry used for the amended-C9 witness: the admin's socket is
closed and one ordinary participant with an open socket remains. -/
def c9wState : RtState :=
  ⟨[("ROOM", [⟨"a", "Alice", true, false⟩, ⟨"b", "Bob", false, true⟩])], []⟩

/-! ## Theorems -/

@[simp] theorem strTruthy_none : strTruthy none = false := rfl

@[simp] theorem strTruthy_some (s : String) : strTruthy (some s) = (s != "") := rfl


/-- C2, counterexample: when no password is stored, even the board's creator
receives the no-password response (valid true, hasPassword false) and NOT
the creator-bypass response (valid true, isCreator true); so the claim that
the creator is answered with isCreator true regardless of the stored
password value is false. -/
theorem c2_counterexample :
    validatePassword c2Board "creator-2" none = ⟨true, some false, none⟩ ∧
    validatePassword c2Board "creator-2" none ≠ ⟨true, none, some true⟩ := by
  decide

/-- C2, amended: when a (non-empty) password is stored on the board, the
creator or lecturer is always answered with valid true and isCreator true
without supplying the password; and when no password is stored, every caller
is answered with valid true (and hasPassword false). -/
theorem c2_validate_password (board : Board) (callerId : String)
    (reqPassword : Option String) :
    (strTruthy board.password = true →
      (board.creatorId = callerId ∨ board.lecturerId = some callerId) →
      validatePassword board callerId reqPassword = ⟨true, none, some true⟩) ∧
    (strTruthy board.password = false →
      validatePassword board callerId reqPassword = ⟨true, some false, none⟩) := by
  refine ⟨fun hpw hcl => ?_, fun hpw => ?_⟩
  · have hc : (board.creatorId == callerId || board.lecturerId == some callerId) = true := by
      rcases hcl with h | h
      · simp [h]
      · simp [h]
    simp [validatePassword, hpw, hc]
  · simp [validatePassword, hpw]

/-- C2, witness: the amended theorem applied to a passworded board with its
creator calling, and to the password-less board with an unrelated caller. -/
theorem c2_validate_password_witness :
    validatePassword ⟨"b", "C", "u1", none, some "pw", false, false⟩ "u1" none =
      ⟨true, none, some true⟩ ∧
    validatePassword c2Board "guest" none = ⟨true, some false, none⟩ :=
  ⟨(c2_validate_password ⟨"b", "C", "u1", none, some "pw", false, false⟩ "u1" none).1
      (by decide) (Or.inl rfl),
   (c2_validate_password c2Board "guest" none).2 (by decide)⟩

/-- C10: a creator or lecturer setting a non-empty password stores it and
marks the room non-public; clearing (absent or empty password) stores null
and marks the room public again. -/
theorem c10_set_room_password (board : Board) (callerId : String)
    (reqPassword : Option String)
    (hcl : board.creatorId = callerId ∨ board.lecturerId = some callerId) :
    (∀ s, reqPassword = some s → s ≠ "" →
      setRoomPassword board callerId reqPassword = .updated (some s) false) ∧
    ((reqPassword = none ∨ reqPassword = some "") →
      setRoomPassword board callerId reqPassword = .updated none true) := by
  have hc : (board.creatorId == callerId || board.lecturerId == some callerId) = true := by
    rcases hcl with h | h
    · simp [h]
    · simp [h]
  refine ⟨fun s hs hne => ?_, fun hclear => ?_⟩
  · subst hs
    simp [setRoomPassword, hc, hne]
  · rcases hclear with h | h <;> subst h <;> simp [setRoomPassword, hc]

/-- C10, witness: the theorem applied at a concrete board for the set and
clear cases. -/
theorem c10_set_room_password_witness :
    setRoomPassword c2Board "creator-2" (some "secret") = .updated (some "secret") false ∧
    setRoomPassword c2Board "creator-2" none = .updated none true :=
  ⟨(c10_set_room_password c2Board "creator-2" (some "secret") (Or.inl rfl)).1
      "secret" rfl (by decide),
   (c10_set_room_password c2Board "creator-2" none (Or.inl rfl)).2 (Or.inl rfl)⟩

/-- C1, counterexample: when transcription fails, the stop handler still
advances the stored status to "transcribed" (src/routes.ts lines 1531-1533
run unconditionally), so the status does NOT remain "completed" as claimed;
the placeholder transcript row and the 200 response do occur. -/
theorem c1_counterexample :
    ((stopRecording [c1Recording] "lect-1" (some "rec-1") (some "AUDIO64") none
        (.error "network failure") 5).finalRecording.map (fun r => r.status)) =
      some "transcribed" ∧
    (stopRecording [c1Recording] "lect-1" (some "rec-1") (some "AUDIO64") none
        (.error "network failure") 5).finalRecording ≠
      some { c1Recording with
              status := "completed", audioData := some "AUDIO64",
              durationMs := some 0, endedAt := some 5 } := by
  decide

/-- C1, amended: when the caller is the recording's lecturer and the
external transcription call fails, the stop request still succeeds (HTTP
200), a transcript row containing the explicit failure placeholder is
created, and the recording is stored with its audio payload — but with
status "transcribed", not "completed". -/
theorem c1_stop_on_transcription_failure (recs : List LectureRecording)
    (callerId rid audio err : String) (durationMs : Option Nat) (now : Nat)
    (recording : LectureRecording)
    (hrid : rid ≠ "") (haudio : audio ≠ "")
    (hfind : getLectureRecording recs rid = some recording)
    (hown : recording.lecturerId = callerId) :
    stopRecording recs callerId (some rid) (some audio) durationMs (.error err) now =
      ⟨200,
       some { recording with
               status := "transcribed", audioData := some audio,
               durationMs := some (durationMs.getD 0), endedAt := some now },
       some ⟨rid, failurePlaceholder⟩⟩ := by
  unfold stopRecording
  have h1 : strTruthy (some rid) = true := by simp [strTruthy, hrid]
  have h2 : strTruthy (some audio) = true := by simp [strTruthy, haudio]
  rw [h1, h2]
  simp only [Bool.not_true, Bool.or_self, Bool.false_eq_true, if_false]
  have hgetd : (some rid).getD "" = rid := rfl
  rw [hgetd, hfind]
  simp [hown]

/-- C1, witness: the amended theorem applied to a concrete recording whose
transcription call rejects. -/
theorem c1_stop_on_transcription_failure_witness :
    stopRecording [c1Recording] "lect-1" (some "rec-1") (some "AUDIO64") none
        (.error "boom") 5 =
      ⟨200,
       some { c1Recording with
               status := "transcribed", audioData := some "AUDIO64",
               durationMs := some 0, endedAt := some 5 },
       some ⟨"rec-1", failurePlaceholder⟩⟩ :=
  c1_stop_on_transcription_failure [c1Recording] "lect-1" "rec-1" "AUDIO64" "boom"
    none 5 c1Recording (by decide) (by decide) (by decide) rfl

/-- C8, counterexample: the model output contains a JSON-object-shaped
substring that parses to a score of 0, yet the route returns 50 rather than
the clamped parsed score 0 — `parsed.score || 50` treats the falsy 0 as
absent — so "the returned score equals the parsed score clamped to 0..100"
is false. -/
theorem c8_counterexample :
    (computeUnderstandingScore [⟨"user", "hello"⟩] "\x7bscore 0\x7d" c8ParseZero).score = 50 ∧
    clampScore 0 = 0 ∧
    (computeUnderstandingScore [⟨"user", "hello"⟩] "\x7bscore 0\x7d" c8ParseZero).score ≠
      clampScore 0 := by
  decide

/-- C8, amended: with no stored messages the response is score 0 with the
fixed no-conversation feedback and the participant row is marked completed
with score 0; when a JSON-object-shaped substring is found and parses to a
NONZERO score, the returned and persisted score is that score clamped to
0..100; a parsed score of 0 (or a missing score field) falls back to 50; and
when no substring is found or parsing throws, the score defaults to 50 with
the generic feedback and the request still succeeds. -/
theorem c8_understanding_score (messages : List ChatMessage) (raw : String)
    (parseJson : String → Option ParsedScore) :
    (messages = [] → computeUnderstandingScore messages raw parseJson =
      ⟨200, 0, noConversationFeedback, "completed", 0⟩) ∧
    (∀ sub parsed n, messages ≠ [] → findJsonObject raw = some sub →
      parseJson sub = some parsed → parsed.score = some n → n ≠ 0 →
      (computeUnderstandingScore messages raw parseJson).score = clampScore n ∧
      (computeUnderstandingScore messages raw parseJson).participantScore = clampScore n ∧
      (computeUnderstandingScore messages raw parseJson).participantStatus = "completed" ∧
      (computeUnderstandingScore messages raw parseJson).httpStatus = 200) ∧
    (∀ sub parsed, messages ≠ [] → findJsonObject raw = some sub →
      parseJson sub = some parsed → (parsed.score = some 0 ∨ parsed.score = none) →
      (computeUnderstandingScore messages raw parseJson).score = 50) ∧
    (messages ≠ [] → findJsonObject raw = none →
      computeUnderstandingScore messages raw parseJson =
        ⟨200, 50, genericFeedback, "completed", 50⟩) ∧
    (∀ sub, messages ≠ [] → findJsonObject raw = some sub → parseJson sub = none →
      computeUnderstandingScore messages raw parseJson =
        ⟨200, 50, genericFeedback, "completed", 50⟩) := by
  refine ⟨fun hnil => ?_, fun sub parsed n hne hfind hparse hscore hnz => ?_,
    fun sub parsed hne hfind hparse hzero => ?_, fun hne hfind => ?_,
    fun sub hne hfind hparse => ?_⟩
  · simp [computeUnderstandingScore, hnil]
  · have hlen : ¬ messages.length = 0 := by simpa [List.length_eq_zero] using hne
    refine ⟨?_, ?_, ?_, ?_⟩ <;>
      simp [computeUnderstandingScore, hlen, hfind, hparse, hscore, hnz, clampScore]
  · have hlen : ¬ messages.length = 0 := by simpa [List.length_eq_zero] using hne
    rcases hzero with h | h <;>
      simp [computeUnderstandingScore, hlen, hfind, hparse, h]
  · have hlen : ¬ messages.length = 0 := by simpa [List.length_eq_zero] using hne
    simp [computeUnderstandingScore, hlen, hfind]
  · have hlen : ¬ messages.length = 0 := by simpa [List.length_eq_zero] using hne
    simp [computeUnderstandingScore, hlen, hfind, hparse]

/-- C8, witness: the amended theorem applied to an empty conversation, to a
parsed score of 150 (clamped to 100), and to a model output with no JSON
object. -/
theorem c8_understanding_score_witness :
    computeUnderstandingScore [] "anything" c8ParseZero =
      ⟨200, 0, noConversationFeedback, "completed", 0⟩ ∧
    (computeUnderstandingScore [⟨"user", "hi"⟩] "\x7bscore 150\x7d" c8ParseBig).score =
      clampScore 150 ∧
    computeUnderstandingScore [⟨"user", "hi"⟩] "no json here" c8ParseBig =
      ⟨200, 50, genericFeedback, "completed", 50⟩ :=
  ⟨(c8_understanding_score [] "anything" c8ParseZero).1 rfl,
   ((c8_understanding_score [⟨"user", "hi"⟩] "\x7bscore 150\x7d" c8ParseBig).2.1
      "\x7bscore 150\x7d" ⟨some 150, some "Excellent grasp of the lecture."⟩ 150
      (by decide) (by decide) rfl rfl (by decide)).1,
   (c8_understanding_score [⟨"user", "hi"⟩] "no json here" c8ParseBig).2.2.2.1
      (by decide) (by decide)⟩

/-- The in-place overwrite of `upsertQuizResponse` leaves every row's key
fields untouched, so the key predicate composed with the overwrite is the
key predicate itself. -/
theorem overwrite_comp_key (e : QuizResponseRow) (answer : String) (c : Bool)
    (now : Nat) (k1 k2 : String) :
    ((fun r : QuizResponseRow => r.sessionId == k1 && r.participantId == k2) ∘
      (fun r => if r.id == e.id then
          { r with answer := some answer, isCorrect := c, updatedAt := now } else r)) =
    (fun r : QuizResponseRow => r.sessionId == k1 && r.participantId == k2) := by
  funext r
  simp only [Function.comp]
  by_cases hid : (r.id == e.id) = true
  · rw [if_pos hid]
  · rw [if_neg hid]

/-- After the in-place overwrite, the first row found for the key is the
overwritten image of the row found before. -/
theorem getQuizResponse_overwrite (rows : List QuizResponseRow) (sid pid : String)
    (e : QuizResponseRow) (answer : String) (c : Bool) (now : Nat)
    (h : getQuizResponse rows sid pid = some e) :
    getQuizResponse (rows.map (fun r =>
        if r.id == e.id then
          { r with answer := some answer, isCorrect := c, updatedAt := now } else r))
      sid pid =
      some { e with answer := some answer, isCorrect := c, updatedAt := now } := by
  unfold getQuizResponse at h ⊢
  rw [List.find?_map, overwrite_comp_key e answer c now sid pid, h]
  simp

/-- Upserting preserves the at-most-one-row-per-key table invariant. -/
theorem countKey_upsert (rows : List QuizResponseRow)
    (freshId sid pid name answer : String) (c : Bool) (now : Nat) (k1 k2 : String)
    (h : countKey rows k1 k2 ≤ 1) :
    countKey (upsertQuizResponse rows freshId sid pid name answer c now) k1 k2 ≤ 1 := by
  unfold upsertQuizResponse
  cases hfind : getQuizResponse rows sid pid with
  | some e =>
    unfold countKey at h ⊢
    rw [List.countP_map, overwrite_comp_key e answer c now k1 k2]
    exact h
  | none =>
    unfold countKey at h ⊢
    rw [List.countP_append]
    by_cases hk : ((sid == k1) && (pid == k2)) = true
    · have hs : sid = k1 ∧ pid = k2 := by simpa using hk
      obtain ⟨hs1, hs2⟩ := hs
      subst hs1; subst hs2
      have hfindeq : rows.find?
          (fun r => r.sessionId == sid && r.participantId == pid) = none := hfind
      have hzero : rows.countP
          (fun r => r.sessionId == sid && r.participantId == pid) = 0 := by
        rw [List.countP_eq_zero]
        intro r hr hkey
        exact absurd hkey (List.find?_eq_none.mp hfindeq r hr)
      rw [hzero]
      have hone : List.countP (fun r => r.sessionId == sid && r.participantId == pid)
          [(⟨freshId, sid, pid, name, some answer, c, now⟩ : QuizResponseRow)] = 1 := by
        simp [List.countP_cons]
      rw [hone]
    · have hzero2 : List.countP (fun r => r.sessionId == k1 && r.participantId == k2)
          [(⟨freshId, sid, pid, name, some answer, c, now⟩ : QuizResponseRow)] = 0 := by
        rw [List.countP_cons, List.countP_nil, if_neg hk]
      rw [hzero2]
      simpa using h

/-- C3: a quiz:response message stores nothing unless the session is active;
when it stores, the recorded isCorrect is exactly the string equality of the
submitted answer with the quiz's correctAnswer; a participant with no prior
row gets one appended, while a participant with a prior row has that row's
answer, isCorrect and updatedAt overwritten with no new row added; and the
at-most-one-row-per-(sessionId, participantId) invariant is preserved. -/
theorem c3_quiz_response (sessions : List QuizSessionRow) (quizzes : List QuizRow)
    (rows : List QuizResponseRow) (freshId sid pid : String)
    (participantName : Option String) (answer : String) (now : Nat) :
    (∀ session, sessions.find? (fun s => s.id == sid) = some session →
      session.status ≠ "active" →
      handleQuizResponse sessions quizzes rows freshId sid pid participantName answer now
        = rows) ∧
    (∀ session quiz, sessions.find? (fun s => s.id == sid) = some session →
      session.status = "active" →
      quizzes.find? (fun q => q.id == session.quizId) = some quiz →
      ((answer == quiz.correctAnswer) = true ↔ answer = quiz.correctAnswer) ∧
      (∀ k1 k2, countKey rows k1 k2 ≤ 1 →
        countKey (handleQuizResponse sessions quizzes rows freshId sid pid
          participantName answer now) k1 k2 ≤ 1) ∧
      (getQuizResponse rows sid pid = none →
        handleQuizResponse sessions quizzes rows freshId sid pid participantName answer now
          = rows ++ [⟨freshId, sid, pid,
              (if strTruthy participantName then participantName.getD "" else pid),
              some answer, answer == quiz.correctAnswer, now⟩]) ∧
      (∀ e, getQuizResponse rows sid pid = some e →
        (handleQuizResponse sessions quizzes rows freshId sid pid
            participantName answer now).length = rows.length ∧
        getQuizResponse (handleQuizResponse sessions quizzes rows freshId sid pid
            participantName answer now) sid pid =
          some { e with answer := some answer, isCorrect := answer == quiz.correctAnswer, updatedAt := now })) := by
  constructor
  · intro session hfind hne
    have hb : (session.status != "active") = true := by simpa using hne
    simp [handleQuizResponse, hfind, hb]
  · intro session quiz hfind hactive hquiz
    have hb : (session.status != "active") = false := by simpa using hactive
    have hhandle : handleQuizResponse sessions quizzes rows freshId sid pid
        participantName answer now =
        upsertQuizResponse rows freshId sid pid
          (if strTruthy participantName then participantName.getD "" else pid)
          answer (answer == quiz.correctAnswer) now := by
      simp [handleQuizResponse, hfind, hb, hquiz]
    refine ⟨beq_iff_eq, fun k1 k2 hk => ?_, fun hnone => ?_, fun e he => ?_⟩
    · rw [hhandle]
      exact countKey_upsert rows freshId sid pid _ answer _ now k1 k2 hk
    · rw [hhandle]
      unfold upsertQuizResponse
      rw [hnone]
    · rw [hhandle]
      unfold upsertQuizResponse
      rw [he]
      exact ⟨List.length_map rows _, getQuizResponse_overwrite rows sid pid e answer _ now he⟩

/-- C3, witness: in an active session with correctAnswer "c2", a first
submission "c1" appends a row marked incorrect; resubmitting "c2" overwrites
that same row in place, marked correct. -/
theorem c3_quiz_response_witness :
    handleQuizResponse [⟨"s1", "b1", "q1", "active"⟩] [⟨"q1", "c2"⟩] [] "r1" "s1" "p1"
        (some "Pat") "c1" 1 =
      [⟨"r1", "s1", "p1", "Pat", some "c1", false, 1⟩] ∧
    handleQuizResponse [⟨"s1", "b1", "q1", "active"⟩] [⟨"q1", "c2"⟩]
        [⟨"r1", "s1", "p1", "Pat", some "c1", false, 1⟩] "r2" "s1" "p1"
        (some "Pat") "c2" 2 =
      [⟨"r1", "s1", "p1", "Pat", some "c2", true, 2⟩] := by
  constructor
  · have h := ((c3_quiz_response [⟨"s1", "b1", "q1", "active"⟩] [⟨"q1", "c2"⟩] [] "r1"
      "s1" "p1" (some "Pat") "c1" 1).2 ⟨"s1", "b1", "q1", "active"⟩ ⟨"q1", "c2"⟩
      rfl rfl rfl).2.2.1 rfl
    simpa using h
  · decide

/-- C4, counterexample: the leaderboard broadcast returns the correct
respondents in stored-table order (the query has no order-by), not by
earliest submission time: Alice's overwritten row (updatedAt 3) precedes
Bob's row (updatedAt 2), so the broadcast is Alice-then-Bob while ordering
by earliest submission time gives Bob-then-Alice. -/
theorem c4_counterexample :
    showLeaderboard c4Rows "s1" = ["Alice", "Bob"] ∧
    claimedLeaderboard c4Rows "s1" = ["Bob", "Alice"] ∧
    showLeaderboard c4Rows "s1" ≠ claimedLeaderboard c4Rows "s1" := by
  decide

/-- C4, amended: the quiz:showLeaderboard broadcast contains at most five
entries; each entry is only a participant name and corresponds to a stored
response of that session with isCorrect true; the entries appear in the
stored table's retrieval order, which is not guaranteed to be (and in
general is not) the order of earliest submission time. -/
theorem c4_show_leaderboard (rows : List QuizResponseRow) (sid : String) :
    (showLeaderboard rows sid).length ≤ 5 ∧
    (∀ n ∈ showLeaderboard rows sid, ∃ r ∈ rows,
      r.sessionId = sid ∧ r.isCorrect = true ∧ r.participantName = n) := by
  constructor
  · unfold showLeaderboard
    rw [List.length_map, List.length_take]
    exact min_le_left 5 _
  · intro n hn
    unfold showLeaderboard at hn
    rw [List.mem_map] at hn
    obtain ⟨r, hr, hname⟩ := hn
    have hr2 : r ∈ (getQuizResponses rows sid).filter (fun r => r.isCorrect) :=
      List.mem_of_mem_take hr
    rw [List.mem_filter] at hr2
    obtain ⟨hr3, hcorr⟩ := hr2
    unfold getQuizResponses at hr3
    rw [List.mem_filter] at hr3
    obtain ⟨hr4, hsid⟩ := hr3
    exact ⟨r, hr4, by simpa using hsid, hcorr, hname⟩

/-- C4, witness: the amended theorem applied to the three-submission table:
both entries come from correct stored responses of session s1. -/
theorem c4_show_leaderboard_witness :
    (showLeaderboard c4Rows "s1").length ≤ 5 ∧
    (∃ r ∈ c4Rows, r.sessionId = "s1" ∧ r.isCorrect = true ∧ r.participantName = "Alice") :=
  ⟨(c4_show_leaderboard c4Rows "s1").1,
   (c4_show_leaderboard c4Rows "s1").2 "Alice" (by decide)⟩

/-- Evaluation rule for `jsRound` from floor bounds. -/
theorem jsRound_eq (q : ℚ) (z : ℤ) (h1 : (z : ℚ) ≤ q + 1/2) (h2 : q + 1/2 < z + 1) :
    jsRound q = z := by
  unfold jsRound
  rw [Int.floor_eq_iff]
  exact ⟨h1, by exact_mod_cast h2⟩

/-- Rounding zero gives zero. -/
theorem jsRound_zero : jsRound 0 = 0 :=
  jsRound_eq 0 0 (by norm_num) (by norm_num)

/-- Deduplicating the empty list gives the empty list. -/
@[simp] theorem dedup_nil : dedup [] = [] := rfl

/-- C6: the teacher-performance route computes quizScore as the rounded
share of quiz-attempting students (it also requires at least one quiz
session, but with no session the attempted count is necessarily zero, so the
value coincides with the claimed formula), twoWayScore as the rounded share
of two-way-board-work students, and participationScore as their sum; with
studentCount 4, attempted 2 and twoWay 1 this yields 25, 13 (round-half-up
of 12.5) and 38. -/
theorem c6_teacher_performance (teacherId : String) (att : List String)
    (sessions : List QuizSessionRow) (rows : List QuizResponseRow)
    (bdata : List BoardDataRow) :
    (computePerf teacherId att sessions rows bdata).quizScore =
      (if 0 < (computePerf teacherId att sessions rows bdata).studentCount then
        jsRound (((computePerf teacherId att sessions rows bdata).attempted : ℚ) /
          ((computePerf teacherId att sessions rows bdata).studentCount : ℚ) * 50)
      else 0) ∧
    (computePerf teacherId att sessions rows bdata).twoWayScore =
      (if 0 < (computePerf teacherId att sessions rows bdata).studentCount then
        jsRound (((computePerf teacherId att sessions rows bdata).twoWay : ℚ) /
          ((computePerf teacherId att sessions rows bdata).studentCount : ℚ) * 50)
      else 0) ∧
    (computePerf teacherId att sessions rows bdata).participationScore =
      (computePerf teacherId att sessions rows bdata).quizScore +
      (computePerf teacherId att sessions rows bdata).twoWayScore ∧
    ((computePerf teacherId att sessions rows bdata).studentCount = 4 →
      (computePerf teacherId att sessions rows bdata).attempted = 2 →
      (computePerf teacherId att sessions rows bdata).twoWay = 1 →
      (computePerf teacherId att sessions rows bdata).quizScore = 25 ∧
      (computePerf teacherId att sessions rows bdata).twoWayScore = 13 ∧
      (computePerf teacherId att sessions rows bdata).participationScore = 38) := by
  have hq : (computePerf teacherId att sessions rows bdata).quizScore =
      (if 0 < (computePerf teacherId att sessions rows bdata).studentCount then
        jsRound (((computePerf teacherId att sessions rows bdata).attempted : ℚ) /
          ((computePerf teacherId att sessions rows bdata).studentCount : ℚ) * 50)
      else 0) := by
    by_cases hqc : 0 < sessions.length
    · by_cases hsc : 0 < (dedup att).length
      · simp [computePerf, hsc, hqc]
      · simp [computePerf, hsc, hqc]
    · have hsess : sessions = [] := List.length_eq_zero.mp (Nat.eq_zero_of_not_pos hqc)
      subst hsess
      by_cases hsc : 0 < (dedup att).length
      · simp [computePerf, hsc, jsRound_zero]
      · simp [computePerf, hsc]
  have ht : (computePerf teacherId att sessions rows bdata).twoWayScore =
      (if 0 < (computePerf teacherId att sessions rows bdata).studentCount then
        jsRound (((computePerf teacherId att sessions rows bdata).twoWay : ℚ) /
          ((computePerf teacherId att sessions rows bdata).studentCount : ℚ) * 50)
      else 0) := by
    by_cases hsc : 0 < (dedup att).length
    · simp [computePerf, hsc]
    · simp [computePerf, hsc]
  have hsum : (computePerf teacherId att sessions rows bdata).participationScore =
      (computePerf teacherId att sessions rows bdata).quizScore +
      (computePerf teacherId att sessions rows bdata).twoWayScore := by
    simp [computePerf]
  refine ⟨hq, ht, hsum, fun h4 h2 h1 => ?_⟩
  have e1 : (computePerf teacherId att sessions rows bdata).quizScore = 25 := by
    rw [hq, h4, h2, if_pos (by norm_num)]
    exact jsRound_eq _ 25 (by norm_num) (by norm_num)
  have e2 : (computePerf teacherId att sessions rows bdata).twoWayScore = 13 := by
    rw [ht, h4, h1, if_pos (by norm_num)]
    exact jsRound_eq _ 13 (by norm_num) (by norm_num)
  exact ⟨e1, e2, by rw [hsum, e1, e2]; norm_num⟩

/-- C6, witness: a concrete board with four students, two quiz respondents
and one two-way-board-work student scores 25, 13 and 38. -/
theorem c6_teacher_performance_witness :
    (computePerf "t" ["sA", "sB", "sC", "sD"] [⟨"sess1", "b1", "q1", "closed"⟩]
      [⟨"r1", "sess1", "sA", "A", some "1", true, 1⟩,
       ⟨"r2", "sess1", "sB", "B", some "2", false, 2⟩]
      [⟨"b1", "t", ["stroke"]⟩, ⟨"b1", "sA", ["stroke"]⟩]).quizScore = 25 ∧
    (computePerf "t" ["sA", "sB", "sC", "sD"] [⟨"sess1", "b1", "q1", "closed"⟩]
      [⟨"r1", "sess1", "sA", "A", some "1", true, 1⟩,
       ⟨"r2", "sess1", "sB", "B", some "2", false, 2⟩]
      [⟨"b1", "t", ["stroke"]⟩, ⟨"b1", "sA", ["stroke"]⟩]).twoWayScore = 13 ∧
    (computePerf "t" ["sA", "sB", "sC", "sD"] [⟨"sess1", "b1", "q1", "closed"⟩]
      [⟨"r1", "sess1", "sA", "A", some "1", true, 1⟩,
       ⟨"r2", "sess1", "sB", "B", some "2", false, 2⟩]
      [⟨"b1", "t", ["stroke"]⟩, ⟨"b1", "sA", ["stroke"]⟩]).participationScore = 38 :=
  (c6_teacher_performance "t" ["sA", "sB", "sC", "sD"] [⟨"sess1", "b1", "q1", "closed"⟩]
      [⟨"r1", "sess1", "sA", "A", some "1", true, 1⟩,
       ⟨"r2", "sess1", "sB", "B", some "2", false, 2⟩]
      [⟨"b1", "t", ["stroke"]⟩, ⟨"b1", "sA", ["stroke"]⟩]).2.2.2
    (by decide) (by decide) (by decide)

/-- Appending one response changes a participant's correct count by one
exactly when the response is correct and theirs. -/
theorem countCorrect_append (seen : List QuizResponseRow) (r : QuizResponseRow)
    (pid : String) :
    countCorrect (seen ++ [r]) pid =
      countCorrect seen pid + (if r.isCorrect && r.participantId == pid then 1 else 0) := by
  unfold countCorrect
  rw [List.filter_append, List.length_append]
  congr 1
  by_cases h : (r.isCorrect && r.participantId == pid) = true
  · rw [if_pos h]
    simp [List.filter_cons, h]
  · rw [if_neg h]
    simp [List.filter_cons, h]

/-- A first correct name, once found, survives appending more responses. -/
theorem firstCorrectName_append_of_some (seen : List QuizResponseRow)
    (r : QuizResponseRow) (pid n : String)
    (h : firstCorrectName seen pid = some n) :
    firstCorrectName (seen ++ [r]) pid = some n := by
  unfold firstCorrectName at h ⊢
  rw [List.find?_append]
  cases hfind : seen.find? (fun x => x.isCorrect && x.participantId == pid) with
  | none => rw [hfind] at h; simp at h
  | some x =>
    rw [hfind] at h
    simpa using h

/-- With no prior correct response, the first correct name after appending a
matching correct response is that response's name. -/
theorem firstCorrectName_append_of_none (seen : List QuizResponseRow)
    (r : QuizResponseRow) (pid : String)
    (hzero : countCorrect seen pid = 0)
    (hc : r.isCorrect = true) (hpid : r.participantId = pid) :
    firstCorrectName (seen ++ [r]) pid = some r.participantName := by
  unfold firstCorrectName
  have hnone : seen.find? (fun x => x.isCorrect && x.participantId == pid) = none := by
    rw [List.find?_eq_none]
    intro x hx hkey
    have : (seen.filter (fun x => x.isCorrect && x.participantId == pid)).length = 0 := hzero
    rw [List.length_eq_zero] at this
    have hmem : x ∈ seen.filter (fun x => x.isCorrect && x.participantId == pid) :=
      List.mem_filter.mpr ⟨hx, hkey⟩
    rw [this] at hmem
    cases hmem
  rw [List.find?_append, hnone]
  have hkey : (r.isCorrect && r.participantId == pid) = true := by
    simp [hc, hpid]
  have hfr : [r].find? (fun x => x.isCorrect && x.participantId == pid) = some r :=
    List.find?_cons_of_pos [] hkey
  rw [hfr]
  rfl

/-- The updated entry of `bumpScore` keeps its pid. -/
theorem bump_upd_pid (pid : String) (e : ScoreEntry) :
    (if e.pid == pid then { e with correct := e.correct + 1 } else e).pid = e.pid := by
  by_cases h : (e.pid == pid) = true
  · rw [if_pos h]
  · rw [if_neg h]

/-- One aggregation step preserves the loop invariant. -/
theorem goodAcc_step (seen : List QuizResponseRow) (acc : List ScoreEntry)
    (r : QuizResponseRow) (hg : GoodAcc seen acc) :
    GoodAcc (seen ++ [r])
      (if r.isCorrect then bumpScore acc r.participantId r.participantName else acc) := by
  obtain ⟨hent, hcomp⟩ := hg
  by_cases hc : r.isCorrect = true
  · rw [if_pos hc]
    unfold bumpScore
    by_cases hany : (acc.any (fun e => e.pid == r.participantId)) = true
    · rw [if_pos hany]
      constructor
      · intro e' he'
        rw [List.mem_map] at he'
        obtain ⟨e0, he0, he0eq⟩ := he'
        obtain ⟨h1, h2, h3⟩ := hent e0 he0
        by_cases hpid : (e0.pid == r.participantId) = true
        · rw [if_pos hpid] at he0eq
          subst he0eq
          have hpid2 : e0.pid = r.participantId := by simpa using hpid
          refine ⟨Nat.le_succ_of_le h1, ?_, ?_⟩
          · rw [countCorrect_append]
            have : (r.isCorrect && r.participantId == e0.pid) = true := by
              simp [hc, hpid2]
            rw [if_pos this, h2]
          · exact firstCorrectName_append_of_some seen r e0.pid e0.name h3
        · rw [if_neg hpid] at he0eq
          subst he0eq
          have hpid2 : ¬ r.participantId = e0.pid := fun h => hpid (by simp [h])
          refine ⟨h1, ?_, ?_⟩
          · rw [countCorrect_append]
            have : (r.isCorrect && r.participantId == e0.pid) = false := by
              simp [hpid2]
            rw [this]
            simpa using h2
          · exact firstCorrectName_append_of_some seen r e0.pid e0.name h3
      · intro pid hpid
        by_cases hsame : pid = r.participantId
        · obtain ⟨e0, he0, he0pid⟩ := List.any_eq_true.mp hany
          refine ⟨(if e0.pid == r.participantId then
              { e0 with correct := e0.correct + 1 } else e0),
            List.mem_map.mpr ⟨e0, he0, rfl⟩, ?_⟩
          rw [bump_upd_pid, hsame]
          simpa using he0pid
        · rw [countCorrect_append] at hpid
          have hne : ¬ r.participantId = pid := fun h => hsame h.symm
          have hfalse : (r.isCorrect && r.participantId == pid) = false := by
            simp [hne]
          rw [hfalse] at hpid
          simp at hpid
          obtain ⟨e0, he0, he0pid⟩ := hcomp pid hpid
          exact ⟨(if e0.pid == r.participantId then
              { e0 with correct := e0.correct + 1 } else e0),
            List.mem_map.mpr ⟨e0, he0, rfl⟩, by rw [bump_upd_pid]; exact he0pid⟩
    · rw [if_neg hany]
      have hzero : countCorrect seen r.participantId = 0 := by
        by_contra hnz
        have hpos : 1 ≤ countCorrect seen r.participantId := Nat.one_le_iff_ne_zero.mpr hnz
        obtain ⟨e0, he0, he0pid⟩ := hcomp r.participantId hpos
        exact hany (List.any_eq_true.mpr ⟨e0, he0, by simp [he0pid]⟩)
      constructor
      · intro e' he'
        rw [List.mem_append] at he'
        rcases he' with he' | he'
        · obtain ⟨h1, h2, h3⟩ := hent e' he'
          have hne : ¬ r.participantId = e'.pid := by
            intro heq
            exact hany (List.any_eq_true.mpr ⟨e', he', by simp [heq]⟩)
          refine ⟨h1, ?_, firstCorrectName_append_of_some seen r e'.pid e'.name h3⟩
          rw [countCorrect_append]
          have : (r.isCorrect && r.participantId == e'.pid) = false := by simp [hne]
          rw [this]
          simpa using h2
        · have he'2 : e' = ⟨r.participantId, r.participantName, 1⟩ := by simpa using he'
          subst he'2
          refine ⟨le_refl 1, ?_, ?_⟩
          · rw [countCorrect_append]
            have : (r.isCorrect && r.participantId == r.participantId) = true := by
              simp [hc]
            rw [if_pos this, hzero]
          · exact firstCorrectName_append_of_none seen r r.participantId hzero hc rfl
      · intro pid hpid
        by_cases hsame : pid = r.participantId
        · exact ⟨⟨r.participantId, r.participantName, 1⟩, by simp, hsame.symm⟩
        · rw [countCorrect_append] at hpid
          have hne : ¬ r.participantId = pid := fun h => hsame h.symm
          have hfalse : (r.isCorrect && r.participantId == pid) = false := by
            simp [hne]
          rw [hfalse] at hpid
          simp at hpid
          obtain ⟨e0, he0, he0pid⟩ := hcomp pid hpid
          exact ⟨e0, List.mem_append.mpr (Or.inl he0), he0pid⟩
  · have hc2 : r.isCorrect = false := Bool.eq_false_iff.mpr hc
    rw [hc2]
    simp only [Bool.false_eq_true, if_false]
    constructor
    · intro e' he'
      obtain ⟨h1, h2, h3⟩ := hent e' he'
      refine ⟨h1, ?_, firstCorrectName_append_of_some seen r e'.pid e'.name h3⟩
      rw [countCorrect_append]
      have : (r.isCorrect && r.participantId == e'.pid) = false := by simp [hc2]
      rw [this]
      simpa using h2
    · intro pid hpid
      rw [countCorrect_append] at hpid
      have : (r.isCorrect && r.participantId == pid) = false := by simp [hc2]
      rw [this] at hpid
      simp at hpid
      exact hcomp pid hpid

/-- The aggregation loop preserves the invariant over any suffix. -/
theorem goodAcc_accum (rest : List QuizResponseRow) :
    ∀ seen acc, GoodAcc seen acc → GoodAcc (seen ++ rest) (accumScores rest acc) := by
  induction rest with
  | nil =>
    intro seen acc h
    simpa using h
  | cons r rs ih =>
    intro seen acc h
    have h3 := ih (seen ++ [r]) _ (goodAcc_step seen acc r h)
    rw [List.append_assoc] at h3
    simpa using h3

/-- The invariant holds for the whole table. -/
theorem goodAcc_all (allR : List QuizResponseRow) :
    GoodAcc allR (accumScores allR []) := by
  have h0 : GoodAcc [] [] := by
    constructor
    · intro e he
      cases he
    · intro pid hpid
      simp [countCorrect] at hpid
  simpa using goodAcc_accum allR [] [] h0

/-- Membership through stable insertion. -/
theorem mem_insertByCorrect (x : ScoreEntry) (l : List ScoreEntry) (y : ScoreEntry) :
    y ∈ insertByCorrect x l ↔ y = x ∨ y ∈ l := by
  induction l with
  | nil => simp [insertByCorrect]
  | cons z zs ih =>
    unfold insertByCorrect
    by_cases h : x.correct ≤ z.correct
    · rw [if_pos h]
      simp only [List.mem_cons, ih]
      tauto
    · rw [if_neg h]
      simp only [List.mem_cons]

/-- Membership through the stable sort. -/
theorem mem_sortFold (l : List ScoreEntry) :
    ∀ acc y, (y ∈ l.foldl (fun a e => insertByCorrect e a) acc) ↔ (y ∈ acc ∨ y ∈ l) := by
  induction l with
  | nil =>
    intro acc y
    simp
  | cons z zs ih =>
    intro acc y
    simp only [List.foldl_cons]
    rw [ih, mem_insertByCorrect]
    simp only [List.mem_cons]
    tauto

/-- Stable insertion preserves descending sortedness. -/
theorem sortedDesc_insert (x : ScoreEntry) (l : List ScoreEntry) (h : SortedDesc l) :
    SortedDesc (insertByCorrect x l) := by
  induction l with
  | nil =>
    unfold insertByCorrect SortedDesc
    simp
  | cons z zs ih =>
    have hcopy := h
    rw [SortedDesc, List.pairwise_cons] at h
    obtain ⟨hz, hzs⟩ := h
    unfold insertByCorrect
    by_cases hc : x.correct ≤ z.correct
    · rw [if_pos hc]
      rw [SortedDesc, List.pairwise_cons]
      constructor
      · intro y hy
        rcases (mem_insertByCorrect x zs y).mp hy with rfl | hy
        · exact hc
        · exact hz y hy
      · exact ih hzs
    · rw [if_neg hc]
      rw [SortedDesc, List.pairwise_cons]
      constructor
      · intro y hy
        rcases List.mem_cons.mp hy with rfl | hy
        · exact le_of_not_le hc
        · exact le_trans (hz y hy) (le_of_not_le hc)
      · exact hcopy

/-- The stable sort produces a descending-sorted list. -/
theorem sortedDesc_sortFold (l : List ScoreEntry) :
    ∀ acc, SortedDesc acc → SortedDesc (l.foldl (fun a e => insertByCorrect e a) acc) := by
  induction l with
  | nil =>
    intro acc h
    exact h
  | cons z zs ih =>
    intro acc h
    exact ih _ (sortedDesc_insert z acc h)

/-- C5, counterexample: a participant answering correctly in two sessions of
the same board under the names Anna then Annie is shown with the FIRST-seen
name Anna (the aggregation only increments the count for an existing entry
and never rewrites its name), not the last-seen name Annie as claimed. -/
theorem c5_counterexample :
    showCumulativeLeaderboard
      [⟨"sA", "board1", "q1", "closed"⟩, ⟨"sB", "board1", "q1", "closed"⟩]
      [⟨"r1", "sA", "p1", "Anna", some "x", true, 1⟩,
       ⟨"r2", "sB", "p1", "Annie", some "x", true, 2⟩] "board1" = [("Anna", 2)] ∧
    claimedCumulativeLeaderboard
      [⟨"sA", "board1", "q1", "closed"⟩, ⟨"sB", "board1", "q1", "closed"⟩]
      [⟨"r1", "sA", "p1", "Anna", some "x", true, 1⟩,
       ⟨"r2", "sB", "p1", "Annie", some "x", true, 2⟩] "board1" = [("Annie", 2)] ∧
    showCumulativeLeaderboard
      [⟨"sA", "board1", "q1", "closed"⟩, ⟨"sB", "board1", "q1", "closed"⟩]
      [⟨"r1", "sA", "p1", "Anna", some "x", true, 1⟩,
       ⟨"r2", "sB", "p1", "Annie", some "x", true, 2⟩] "board1" ≠
    claimedCumulativeLeaderboard
      [⟨"sA", "board1", "q1", "closed"⟩, ⟨"sB", "board1", "q1", "closed"⟩]
      [⟨"r1", "sA", "p1", "Anna", some "x", true, 1⟩,
       ⟨"r2", "sB", "p1", "Annie", some "x", true, 2⟩] "board1" := by
  decide

/-- C5, amended: the cumulative-leaderboard broadcast has at most five
(name, score) entries sorted by score descending; each entry's score is the
participant's count of correct responses across all of the board's sessions
(at least 1) and its name is that participant's FIRST-seen name; and every
participant with at least one correct response has an entry in the
pre-truncation sorted list. -/
theorem c5_cumulative_leaderboard (sessions : List QuizSessionRow)
    (rows : List QuizResponseRow) (boardId : String) :
    (showCumulativeLeaderboard sessions rows boardId).length ≤ 5 ∧
    (∀ ns ∈ showCumulativeLeaderboard sessions rows boardId, ∃ pid,
      1 ≤ ns.2 ∧
      countCorrect (getQuizResponsesByBoardId sessions rows boardId) pid = ns.2 ∧
      firstCorrectName (getQuizResponsesByBoardId sessions rows boardId) pid = some ns.1) ∧
    (showCumulativeLeaderboard sessions rows boardId).Pairwise (fun a b => b.2 ≤ a.2) ∧
    (∀ pid, 1 ≤ countCorrect (getQuizResponsesByBoardId sessions rows boardId) pid →
      ∃ e ∈ sortByCorrectDesc
          (accumScores (getQuizResponsesByBoardId sessions rows boardId) []),
        e.pid = pid) := by
  have hgood := goodAcc_all (getQuizResponsesByBoardId sessions rows boardId)
  obtain ⟨hent, hcomp⟩ := hgood
  refine ⟨?_, ?_, ?_, ?_⟩
  · unfold showCumulativeLeaderboard
    rw [List.length_map, List.length_take]
    exact min_le_left 5 _
  · intro ns hns
    unfold showCumulativeLeaderboard at hns
    rw [List.mem_map] at hns
    obtain ⟨e, he, hns⟩ := hns
    have he2 : e ∈ sortByCorrectDesc
        (accumScores (getQuizResponsesByBoardId sessions rows boardId) []) :=
      List.mem_of_mem_take he
    have he3 : e ∈ accumScores (getQuizResponsesByBoardId sessions rows boardId) [] := by
      have := (mem_sortFold _ [] e).mp he2
      simpa using this
    obtain ⟨h1, h2, h3⟩ := hent e he3
    refine ⟨e.pid, ?_, ?_, ?_⟩
    · rw [← hns]; exact h1
    · rw [← hns]; exact h2.symm
    · rw [← hns]; exact h3
  · unfold showCumulativeLeaderboard
    rw [List.pairwise_map]
    have hsorted : SortedDesc (sortByCorrectDesc
        (accumScores (getQuizResponsesByBoardId sessions rows boardId) [])) :=
      sortedDesc_sortFold _ [] List.Pairwise.nil
    exact List.Pairwise.sublist (List.take_sublist 5 _) hsorted
  · intro pid hpid
    obtain ⟨e, he, hepid⟩ := hcomp pid hpid
    exact ⟨e, (mem_sortFold _ [] e).mpr (Or.inr he), hepid⟩

/-- C5, witness: the spec's own scenario — two sessions on one board where
s1 answers correctly in both and s2 once — produces entries with score 2 for
s1 and the leaderboard sorted descending. -/
theorem c5_cumulative_leaderboard_witness :
    (∃ pid, 1 ≤ 2 ∧
      countCorrect (getQuizResponsesByBoardId
        [⟨"sA", "b", "q1", "closed"⟩, ⟨"sB", "b", "q2", "closed"⟩]
        [⟨"r1", "sA", "s1", "s1", some "x", true, 1⟩,
         ⟨"r2", "sA", "s2", "s2", some "x", true, 2⟩,
         ⟨"r3", "sB", "s1", "s1", some "y", true, 3⟩] "b") pid = 2 ∧
      firstCorrectName (getQuizResponsesByBoardId
        [⟨"sA", "b", "q1", "closed"⟩, ⟨"sB", "b", "q2", "closed"⟩]
        [⟨"r1", "sA", "s1", "s1", some "x", true, 1⟩,
         ⟨"r2", "sA", "s2", "s2", some "x", true, 2⟩,
         ⟨"r3", "sB", "s1", "s1", some "y", true, 3⟩] "b") pid = some "s1") ∧
    (showCumulativeLeaderboard
        [⟨"sA", "b", "q1", "closed"⟩, ⟨"sB", "b", "q2", "closed"⟩]
        [⟨"r1", "sA", "s1", "s1", some "x", true, 1⟩,
         ⟨"r2", "sA", "s2", "s2", some "x", true, 2⟩,
         ⟨"r3", "sB", "s1", "s1", some "y", true, 3⟩] "b").Pairwise
      (fun a b => b.2 ≤ a.2) :=
  ⟨(c5_cumulative_leaderboard
      [⟨"sA", "b", "q1", "closed"⟩, ⟨"sB", "b", "q2", "closed"⟩]
      [⟨"r1", "sA", "s1", "s1", some "x", true, 1⟩,
       ⟨"r2", "sA", "s2", "s2", some "x", true, 2⟩,
       ⟨"r3", "sB", "s1", "s1", some "y", true, 3⟩] "b").2.1 ("s1", 2) (by decide),
   (c5_cumulative_leaderboard
      [⟨"sA", "b", "q1", "closed"⟩, ⟨"sB", "b", "q2", "closed"⟩]
      [⟨"r1", "sA", "s1", "s1", some "x", true, 1⟩,
       ⟨"r2", "sA", "s2", "s2", some "x", true, 2⟩,
       ⟨"r3", "sB", "s1", "s1", some "y", true, 3⟩] "b").2.2.1⟩

/-- The latest-row fold returns its seed or a list element. -/
theorem pickLatest_mem (b : AttendanceRow) (l : List AttendanceRow) :
    pickLatest b l = b ∨ pickLatest b l ∈ l := by
  induction l generalizing b with
  | nil => exact Or.inl rfl
  | cons x xs ih =>
    unfold pickLatest
    by_cases h : b.joinedAt < x.joinedAt
    · rw [if_pos h]
      rcases ih x with h1 | h1
      · exact Or.inr (by rw [h1]; exact List.mem_cons_self x xs)
      · exact Or.inr (List.mem_cons_of_mem x h1)
    · rw [if_neg h]
      rcases ih b with h1 | h1
      · exact Or.inl h1
      · exact Or.inr (List.mem_cons_of_mem x h1)

/-- The latest-row fold dominates the seed and every list element. -/
theorem le_pickLatest (b : AttendanceRow) (l : List AttendanceRow) :
    ∀ y, (y = b ∨ y ∈ l) → y.joinedAt ≤ (pickLatest b l).joinedAt := by
  induction l generalizing b with
  | nil =>
    intro y hy
    rcases hy with rfl | h
    · exact le_refl _
    · cases h
  | cons x xs ih =>
    intro y hy
    unfold pickLatest
    by_cases hlt : b.joinedAt < x.joinedAt
    · rw [if_pos hlt]
      rcases hy with rfl | h
      · exact le_trans (le_of_lt hlt) (ih x x (Or.inl rfl))
      · rcases List.mem_cons.mp h with rfl | hxs
        · exact ih y y (Or.inl rfl)
        · exact ih x y (Or.inr hxs)
    · rw [if_neg hlt]
      rcases hy with rfl | h
      · exact ih y y (Or.inl rfl)
      · rcases List.mem_cons.mp h with rfl | hxs
        · exact le_trans (le_of_not_lt hlt) (ih b b (Or.inl rfl))
        · exact ih b y (Or.inr hxs)

/-- A row returned by `getActiveAttendance` is a stored row of the pair. -/
theorem getActive_mem (rows : List AttendanceRow) (bid sid : String) (e : AttendanceRow)
    (h : getActiveAttendance rows bid sid = some e) :
    e ∈ rows ∧ e.boardId = bid ∧ e.studentId = sid := by
  unfold getActiveAttendance at h
  cases hfil : rows.filter (fun x => x.boardId == bid && x.studentId == sid) with
  | nil => rw [hfil] at h; cases h
  | cons m ms =>
    rw [hfil] at h
    have he : e = pickLatest m ms := (Option.some.inj h).symm
    have hmem : e ∈ m :: ms := by
      rw [he]
      rcases pickLatest_mem m ms with h1 | h1
      · rw [h1]; exact List.mem_cons_self m ms
      · exact List.mem_cons_of_mem m h1
    rw [← hfil] at hmem
    have h2 := List.mem_filter.mp hmem
    have h3 : e.boardId = bid ∧ e.studentId = sid := by simpa using h2.2
    exact ⟨h2.1, h3.1, h3.2⟩

/-- Under the invariant, `getActiveAttendance` returns the open row of the
pair whenever one exists: the open row joined strictly later than every
other row of the pair, and the fold picks a row of maximal joinedAt. -/
theorem getActive_of_open (rows : List AttendanceRow) (bid sid : String)
    (r : AttendanceRow) (hinv : AttendanceInv rows)
    (hr : r ∈ rows) (hopen : r.leftAt = none)
    (hb : r.boardId = bid) (hs : r.studentId = sid) :
    getActiveAttendance rows bid sid = some r := by
  have hrmem : r ∈ rows.filter (fun x => x.boardId == bid && x.studentId == sid) :=
    List.mem_filter.mpr ⟨hr, by simp [hb, hs]⟩
  unfold getActiveAttendance
  cases hfil : rows.filter (fun x => x.boardId == bid && x.studentId == sid) with
  | nil => rw [hfil] at hrmem; cases hrmem
  | cons m ms =>
    rw [hfil] at hrmem
    have hresmem : pickLatest m ms ∈ m :: ms := by
      rcases pickLatest_mem m ms with h1 | h1
      · rw [h1]; exact List.mem_cons_self m ms
      · exact List.mem_cons_of_mem m h1
    have hresfil : pickLatest m ms ∈
        rows.filter (fun x => x.boardId == bid && x.studentId == sid) := by
      rw [hfil]; exact hresmem
    have hres2 := List.mem_filter.mp hresfil
    have hreskey : (pickLatest m ms).boardId = bid ∧ (pickLatest m ms).studentId = sid := by
      simpa using hres2.2
    have hge : r.joinedAt ≤ (pickLatest m ms).joinedAt := by
      apply le_pickLatest
      rcases List.mem_cons.mp hrmem with h1 | h1
      · exact Or.inl h1
      · exact Or.inr h1
    by_cases heq : pickLatest m ms = r
    · show some (pickLatest m ms) = some r
      rw [heq]
    · exfalso
      have hlt := hinv.2 r hr hopen (pickLatest m ms) hres2.1 heq
        (hreskey.1.trans hb.symm) (hreskey.2.trans hs.symm)
      exact absurd hge (not_le.mpr hlt)

/-- Joining while the pair has an open row returns that row and leaves the
table unchanged. -/
theorem join_open_row (rows : List AttendanceRow) (freshId bid sid : String) (now : Nat)
    (r : AttendanceRow) (hinv : AttendanceInv rows)
    (hr : r ∈ rows) (hopen : r.leftAt = none)
    (hb : r.boardId = bid) (hs : r.studentId = sid) :
    joinAttendance rows freshId bid sid now = (r, rows) := by
  unfold joinAttendance
  rw [getActive_of_open rows bid sid r hinv hr hopen hb hs]
  simp [hopen]

/-- Joining while the pair has no open row appends a fresh open row with
joinedAt = now. -/
theorem join_no_open (rows : List AttendanceRow) (freshId bid sid : String) (now : Nat)
    (hclosed : ∀ r ∈ rows, r.boardId = bid → r.studentId = sid → r.leftAt ≠ none) :
    joinAttendance rows freshId bid sid now =
      (⟨freshId, bid, sid, now, none, 0⟩, rows ++ [⟨freshId, bid, sid, now, none, 0⟩]) := by
  unfold joinAttendance
  cases hga : getActiveAttendance rows bid sid with
  | none => simp
  | some e =>
    obtain ⟨hmem, hbb, hss⟩ := getActive_mem rows bid sid e hga
    have : e.leftAt ≠ none := hclosed e hmem hbb hss
    simp [this]

/-- The appended fresh row preserves the attendance invariant when the pair
has no open row, the fresh id is new, and the join time is later than every
stored join time. -/
theorem inv_append (rows : List AttendanceRow) (freshId bid sid : String) (now : Nat)
    (hinv : AttendanceInv rows)
    (hfresh : ∀ r ∈ rows, r.id ≠ freshId)
    (htime : ∀ r ∈ rows, r.joinedAt < now)
    (hnoopen : ∀ r ∈ rows, r.boardId = bid → r.studentId = sid → r.leftAt ≠ none) :
    AttendanceInv (rows ++ [⟨freshId, bid, sid, now, none, 0⟩]) := by
  obtain ⟨hnodup, hmax⟩ := hinv
  constructor
  · rw [List.map_append, List.nodup_append]
    refine ⟨hnodup, List.nodup_singleton _, ?_⟩
    intro a ha hb2
    have ha2 : ∃ r ∈ rows, r.id = a := by
      rw [List.mem_map] at ha
      obtain ⟨r, hr, hra⟩ := ha
      exact ⟨r, hr, hra⟩
    obtain ⟨r, hr, hra⟩ := ha2
    have hb3 : a = freshId := by simpa using hb2
    exact hfresh r hr (hra.trans hb3)
  · intro r hr hopen s hs hne hbb hss
    rw [List.mem_append] at hr hs
    rcases hr with hr | hr
    · rcases hs with hs | hs
      · exact hmax r hr hopen s hs hne hbb hss
      · have hs2 : s = ⟨freshId, bid, sid, now, none, 0⟩ := by simpa using hs
        subst hs2
        exact absurd hopen (hnoopen r hr (by simpa using hbb.symm) (by simpa using hss.symm))
    · have hr2 : r = ⟨freshId, bid, sid, now, none, 0⟩ := by simpa using hr
      subst hr2
      rcases hs with hs | hs
      · exact htime s hs
      · have hs2 : s = ⟨freshId, bid, sid, now, none, 0⟩ := by simpa using hs
        exact absurd hs2 hne

/-- Join preserves the attendance invariant (given fresh id and time). -/
theorem inv_join (rows : List AttendanceRow) (freshId bid sid : String) (now : Nat)
    (hinv : AttendanceInv rows)
    (hfresh : ∀ r ∈ rows, r.id ≠ freshId)
    (htime : ∀ r ∈ rows, r.joinedAt < now) :
    AttendanceInv (joinAttendance rows freshId bid sid now).2 := by
  by_cases hop : ∃ r ∈ rows, r.leftAt = none ∧ r.boardId = bid ∧ r.studentId = sid
  · obtain ⟨r, hr, hopen, hb, hs⟩ := hop
    rw [join_open_row rows freshId bid sid now r hinv hr hopen hb hs]
    exact hinv
  · have hclosed : ∀ r ∈ rows, r.boardId = bid → r.studentId = sid → r.leftAt ≠ none := by
      intro r hr hb hs hopen
      exact hop ⟨r, hr, hopen, hb, hs⟩
    rw [join_no_open rows freshId bid sid now hclosed]
    exact inv_append rows freshId bid sid now hinv hfresh htime hclosed

/-- The row a join returns is open, belongs to the pair, and is stored. -/
theorem join_ret (rows : List AttendanceRow) (freshId bid sid : String) (now : Nat)
    (hinv : AttendanceInv rows) :
    (joinAttendance rows freshId bid sid now).1.leftAt = none ∧
    (joinAttendance rows freshId bid sid now).1.boardId = bid ∧
    (joinAttendance rows freshId bid sid now).1.studentId = sid ∧
    (joinAttendance rows freshId bid sid now).1 ∈ (joinAttendance rows freshId bid sid now).2 := by
  by_cases hop : ∃ r ∈ rows, r.leftAt = none ∧ r.boardId = bid ∧ r.studentId = sid
  · obtain ⟨r, hr, hopen, hb, hs⟩ := hop
    rw [join_open_row rows freshId bid sid now r hinv hr hopen hb hs]
    exact ⟨hopen, hb, hs, hr⟩
  · have hclosed : ∀ r ∈ rows, r.boardId = bid → r.studentId = sid → r.leftAt ≠ none := by
      intro r hr hb hs hopen
      exact hop ⟨r, hr, hopen, hb, hs⟩
    rw [join_no_open rows freshId bid sid now hclosed]
    exact ⟨rfl, rfl, rfl, by simp⟩

/-- The leave update keeps id, pair and join time. -/
theorem leaveUpd_fields (rid : String) (now ts : Nat) (r : AttendanceRow) :
    (leaveUpd rid now ts r).id = r.id ∧
    (leaveUpd rid now ts r).boardId = r.boardId ∧
    (leaveUpd rid now ts r).studentId = r.studentId ∧
    (leaveUpd rid now ts r).joinedAt = r.joinedAt := by
  unfold leaveUpd
  by_cases h : (r.id == rid) = true
  · rw [if_pos h]
    exact ⟨rfl, rfl, rfl, rfl⟩
  · rw [if_neg h]
    exact ⟨rfl, rfl, rfl, rfl⟩

/-- A row still open after the leave update was untouched by it. -/
theorem leaveUpd_open (rid : String) (now ts : Nat) (r : AttendanceRow)
    (h : (leaveUpd rid now ts r).leftAt = none) : leaveUpd rid now ts r = r := by
  unfold leaveUpd at h ⊢
  by_cases hid : (r.id == rid) = true
  · rw [if_pos hid] at h
    simp at h
  · rw [if_neg hid]

/-- Leave preserves the attendance invariant. -/
theorem inv_leave (rows : List AttendanceRow) (rid : String) (now ts : Nat)
    (hinv : AttendanceInv rows) :
    AttendanceInv (leaveAttendance rows rid now ts) := by
  obtain ⟨hnodup, hmax⟩ := hinv
  constructor
  · have hids : (leaveAttendance rows rid now ts).map (fun r => r.id) =
        rows.map (fun r => r.id) := by
      unfold leaveAttendance
      rw [List.map_map]
      exact List.map_congr_left (fun r _ => (leaveUpd_fields rid now ts r).1)
    rw [hids]
    exact hnodup
  · intro r hr hopen s hs hne hbb hss
    obtain ⟨r0, hr0, hr0eq⟩ := List.mem_map.mp hr
    obtain ⟨s0, hs0, hs0eq⟩ := List.mem_map.mp hs
    have hr0open : leaveUpd rid now ts r0 = r0 := leaveUpd_open rid now ts r0 (by rw [hr0eq]; exact hopen)
    have hrr0 : r = r0 := by rw [← hr0eq, hr0open]
    have hne0 : s0 ≠ r0 := by
      intro heq
      apply hne
      rw [← hs0eq, ← hr0eq, heq]
    have hbb0 : s0.boardId = r0.boardId := by
      have h1 := (leaveUpd_fields rid now ts s0).2.1
      rw [hs0eq] at h1
      rw [← h1, hbb, hrr0]
    have hss0 : s0.studentId = r0.studentId := by
      have h1 := (leaveUpd_fields rid now ts s0).2.2.1
      rw [hs0eq] at h1
      rw [← h1, hss, hrr0]
    have hopen0 : r0.leftAt = none := by rw [← hr0open, hr0eq]; exact hopen
    have hlt := hmax r0 hr0 hopen0 s0 hs0 hne0 hbb0 hss0
    have hj1 := (leaveUpd_fields rid now ts s0).2.2.2
    rw [hs0eq] at hj1
    rw [hj1, hrr0]
    exact hlt

/-- C7: under the reachable-table invariant (with a fresh row id and a join
time later than all stored join times), a join while an open row exists for
the pair returns that row and adds nothing; a join with no open row appends
a fresh open row with joinedAt = now; two joins without an intervening leave
return the same row and the same table; and a join after leaving the
returned row appends a fresh row. -/
theorem c7_attendance (rows : List AttendanceRow) (freshId bid sid : String) (now : Nat)
    (hinv : AttendanceInv rows)
    (hfresh : ∀ r ∈ rows, r.id ≠ freshId)
    (htime : ∀ r ∈ rows, r.joinedAt < now) :
    (∀ r ∈ rows, r.leftAt = none → r.boardId = bid → r.studentId = sid →
      joinAttendance rows freshId bid sid now = (r, rows)) ∧
    ((∀ r ∈ rows, r.boardId = bid → r.studentId = sid → r.leftAt ≠ none) →
      joinAttendance rows freshId bid sid now =
        (⟨freshId, bid, sid, now, none, 0⟩, rows ++ [⟨freshId, bid, sid, now, none, 0⟩])) ∧
    (∀ freshId2 now2,
      joinAttendance (joinAttendance rows freshId bid sid now).2 freshId2 bid sid now2 =
        ((joinAttendance rows freshId bid sid now).1,
         (joinAttendance rows freshId bid sid now).2)) ∧
    (∀ leaveNow ts freshId3 now3,
      (joinAttendance
          (leaveAttendance (joinAttendance rows freshId bid sid now).2
            (joinAttendance rows freshId bid sid now).1.id leaveNow ts)
          freshId3 bid sid now3).2 =
        leaveAttendance (joinAttendance rows freshId bid sid now).2
            (joinAttendance rows freshId bid sid now).1.id leaveNow ts ++
          [⟨freshId3, bid, sid, now3, none, 0⟩]) := by
  have hinv2 : AttendanceInv (joinAttendance rows freshId bid sid now).2 :=
    inv_join rows freshId bid sid now hinv hfresh htime
  obtain ⟨hropen, hrb, hrs, hrmem⟩ := join_ret rows freshId bid sid now hinv
  refine ⟨?_, ?_, ?_, ?_⟩
  · intro r hr hopen hb hs
    exact join_open_row rows freshId bid sid now r hinv hr hopen hb hs
  · intro hclosed
    exact join_no_open rows freshId bid sid now hclosed
  · intro freshId2 now2
    exact join_open_row (joinAttendance rows freshId bid sid now).2 freshId2 bid sid now2
      (joinAttendance rows freshId bid sid now).1 hinv2 hrmem hropen hrb hrs
  · intro leaveNow ts freshId3 now3
    have hclosed3 : ∀ r ∈ leaveAttendance (joinAttendance rows freshId bid sid now).2
        (joinAttendance rows freshId bid sid now).1.id leaveNow ts,
        r.boardId = bid → r.studentId = sid → r.leftAt ≠ none := by
      intro r hr hb hs hopen
      obtain ⟨r0, hr0, hr0eq⟩ := List.mem_map.mp hr
      have hr0open : leaveUpd (joinAttendance rows freshId bid sid now).1.id leaveNow ts r0 = r0 :=
        leaveUpd_open _ leaveNow ts r0 (by rw [hr0eq]; exact hopen)
      have hid0 : ¬ (r0.id == (joinAttendance rows freshId bid sid now).1.id) = true := by
        intro hid
        have hupd : leaveUpd (joinAttendance rows freshId bid sid now).1.id leaveNow ts r0 =
            { r0 with leftAt := some leaveNow, timeSpentSeconds := ts } := by
          unfold leaveUpd
          rw [if_pos hid]
        rw [hupd] at hr0eq
        have hcontra : r.leftAt = some leaveNow := by rw [← hr0eq]
        rw [hopen] at hcontra
        cases hcontra
      have hrr0 : r = r0 := by rw [← hr0eq, hr0open]
      have hopen0 : r0.leftAt = none := by rw [← hrr0]; exact hopen
      have hne0 : r0 ≠ (joinAttendance rows freshId bid sid now).1 := by
        intro heq
        apply hid0
        rw [heq]
        exact beq_self_eq_true _
      have hb0 : r0.boardId = (joinAttendance rows freshId bid sid now).1.boardId := by
        rw [← hrr0, hb, hrb]
      have hs0 : r0.studentId = (joinAttendance rows freshId bid sid now).1.studentId := by
        rw [← hrr0, hs, hrs]
      have hlt1 := hinv2.2 (joinAttendance rows freshId bid sid now).1 hrmem hropen
        r0 hr0 hne0 hb0 hs0
      have hlt2 := hinv2.2 r0 hr0 hopen0 (joinAttendance rows freshId bid sid now).1 hrmem
        (Ne.symm hne0) hb0.symm hs0.symm
      exact absurd hlt2 (not_lt.mpr (le_of_lt hlt1))
    have := join_no_open (leaveAttendance (joinAttendance rows freshId bid sid now).2
        (joinAttendance rows freshId bid sid now).1.id leaveNow ts) freshId3 bid sid now3 hclosed3
    rw [this]

/-- C7, witness: on an empty table, a first join creates an open row, a
second join returns the same row unchanged, and a join after leaving the
returned row appends a fresh row. -/
theorem c7_attendance_witness :
    joinAttendance [] "a1" "b" "s" 1 =
      (⟨"a1", "b", "s", 1, none, 0⟩, [⟨"a1", "b", "s", 1, none, 0⟩]) ∧
    joinAttendance (joinAttendance [] "a1" "b" "s" 1).2 "a2" "b" "s" 2 =
      ((joinAttendance [] "a1" "b" "s" 1).1, (joinAttendance [] "a1" "b" "s" 1).2) ∧
    (joinAttendance
        (leaveAttendance (joinAttendance [] "a1" "b" "s" 1).2
          (joinAttendance [] "a1" "b" "s" 1).1.id 5 4)
        "a3" "b" "s" 6).2 =
      leaveAttendance (joinAttendance [] "a1" "b" "s" 1).2
          (joinAttendance [] "a1" "b" "s" 1).1.id 5 4 ++ [⟨"a3", "b", "s", 6, none, 0⟩] :=
  ⟨(c7_attendance [] "a1" "b" "s" 1 (by decide) (by decide) (by decide)).2.1 (by decide),
   (c7_attendance [] "a1" "b" "s" 1 (by decide) (by decide) (by decide)).2.2.1 "a2" 2,
   (c7_attendance [] "a1" "b" "s" 1 (by decide) (by decide) (by decide)).2.2.2 5 4 "a3" 6⟩

/-- Looking up a room after the registry rewrites that room's entry. -/
theorem lookup_update (rooms : List (String × List WsParticipant)) (code : String)
    (newRoom : List WsParticipant) :
    lookupRoom (rooms.map (fun kv => if kv.1 == code then (kv.1, newRoom) else kv)) code =
      (lookupRoom rooms code).map (fun _ => newRoom) := by
  induction rooms with
  | nil => rfl
  | cons kv kvs ih =>
    unfold lookupRoom at ih ⊢
    by_cases h : (kv.1 == code) = true
    · rw [List.map_cons, if_pos h]
      have h1 : (((kv.1, newRoom) : String × List WsParticipant).1 == code) = true := h
      have e1 : List.find? (fun kv => kv.1 == code)
          ((kv.1, newRoom) ::
            kvs.map (fun kv => if kv.1 == code then (kv.1, newRoom) else kv)) =
          some (kv.1, newRoom) := List.find?_cons_of_pos _ h1
      have e2 : List.find? (fun kv => kv.1 == code) (kv :: kvs) = some kv :=
        List.find?_cons_of_pos _ h
      rw [e1, e2]
      rfl
    · rw [List.map_cons, if_neg h]
      have e1 : List.find? (fun kv => kv.1 == code)
          (kv :: kvs.map (fun kv => if kv.1 == code then (kv.1, newRoom) else kv)) =
          List.find? (fun kv => kv.1 == code)
            (kvs.map (fun kv => if kv.1 == code then (kv.1, newRoom) else kv)) :=
        List.find?_cons_of_neg _ h
      have e2 : List.find? (fun kv => kv.1 == code) (kv :: kvs) =
          List.find? (fun kv => kv.1 == code) kvs :=
        List.find?_cons_of_neg _ h
      rw [e1, e2]
      exact ih

/-- Looking up a room after its registry entry is deleted yields nothing. -/
theorem lookup_erase (rooms : List (String × List WsParticipant)) (code : String) :
    lookupRoom (rooms.filter (fun kv => kv.1 != code)) code = none := by
  unfold lookupRoom
  have hnone : (rooms.filter (fun kv => kv.1 != code)).find? (fun kv => kv.1 == code) = none := by
    rw [List.find?_eq_none]
    intro kv hkv hcode
    have h2 := (List.mem_filter.mp hkv).2
    simp at h2 hcode
    exact h2 hcode
  rw [hnone]
  rfl

/-- C9, counterexample: when the departing admin was the room's only
participant, the timer removes the room without marking the board ended
(the isEnded update is guarded by currentRoom.size > 0 after the removal),
and the room's focus-state entry is not discarded either — so the claim that
an admin departure always marks the board ended (and that the room's entire
in-memory state is discarded) is false. -/
theorem c9_counterexample :
    (fireDisconnectTimer c9State (some c9Board) "ROOM" "a" true).board = some c9Board ∧
    c9Board.isEnded = false ∧
    (fireDisconnectTimer c9State (some c9Board) "ROOM" "a" true).board ≠
      some { c9Board with isEnded := true } ∧
    lookupRoom (fireDisconnectTimer c9State (some c9Board) "ROOM" "a" true).state.rooms
      "ROOM" = none ∧
    (fireDisconnectTimer c9State (some c9Board) "ROOM" "a" true).state.focus =
      [("ROOM", some "a")] := by
  decide

/-- C9, amended: when the grace timer fires for a participant who is still
registered and has no open socket, the participant is removed from the
room's registry entry and the entry is dropped exactly when it becomes
empty (the focus map is not discarded); a userLeft message is sent to every
remaining open socket; and the board is marked ended (persisted and
broadcast) only when the departing participant was admin AND at least one
participant remains — an admin who was the last participant does not end
the board. -/
theorem c9_disconnect_timer (st : RtState) (board : Option Board)
    (roomCode pid : String) (wasAdmin : Bool) (room : List WsParticipant)
    (p : WsParticipant)
    (hroom : lookupRoom st.rooms roomCode = some room)
    (hp : room.find? (fun q => q.id == pid) = some p)
    (hclosed : p.wsOpen = false) :
    (fireDisconnectTimer st board roomCode pid wasAdmin).state.focus = st.focus ∧
    lookupRoom (fireDisconnectTimer st board roomCode pid wasAdmin).state.rooms roomCode =
      (if (room.filter (fun q => q.id != pid)).length = 0 then none
       else some (room.filter (fun q => q.id != pid))) ∧
    (wasAdmin = true → room.filter (fun q => q.id != pid) ≠ [] →
      (fireDisconnectTimer st board roomCode pid wasAdmin).board =
        board.map (fun b => { b with isEnded := true })) ∧
    ((wasAdmin = false ∨ room.filter (fun q => q.id != pid) = []) →
      (fireDisconnectTimer st board roomCode pid wasAdmin).board = board) ∧
    (∀ q ∈ room.filter (fun q => q.id != pid), q.wsOpen = true →
      (q.id, "userLeft") ∈ (fireDisconnectTimer st board roomCode pid wasAdmin).broadcasts) ∧
    (∀ m ∈ (fireDisconnectTimer st board roomCode pid wasAdmin).broadcasts,
      m.2 = "userLeft" ∨ (m.2 = "sessionState" ∧ wasAdmin = true ∧
        room.filter (fun q => q.id != pid) ≠ [])) := by
  simp only [fireDisconnectTimer, hroom, hp, hclosed, Bool.false_eq_true, if_false]
  by_cases hlen : (room.filter (fun q => q.id != pid)).length = 0
  · have hnil : room.filter (fun q => q.id != pid) = [] := List.length_eq_zero.mp hlen
    have hdec : (decide (0 < (room.filter (fun q => q.id != pid)).length)) = false := by
      simp [hlen]
    refine ⟨trivial, ?_, ?_, ?_, ?_, ?_⟩
    · rw [if_pos hlen]
      simp only [hlen, if_pos]
      exact lookup_erase st.rooms roomCode
    · intro _ hne
      exact absurd hnil hne
    · intro _
      simp [hdec, Bool.and_false]
    · intro q hq
      rw [hnil] at hq
      cases hq
    · intro m hm
      rw [hnil] at hm
      simp [hdec, Bool.and_false] at hm
  · have hpos : 0 < (room.filter (fun q => q.id != pid)).length := Nat.pos_of_ne_zero hlen
    have hne : room.filter (fun q => q.id != pid) ≠ [] := by
      intro h
      exact hlen (by rw [h]; rfl)
    have hdec : (decide (0 < (room.filter (fun q => q.id != pid)).length)) = true := by
      simp [hpos]
    refine ⟨trivial, ?_, ?_, ?_, ?_, ?_⟩
    · rw [if_neg hlen]
      simp only [hlen, if_neg, if_false]
      rw [lookup_update st.rooms roomCode (room.filter (fun q => q.id != pid)), hroom]
      rfl
    · intro hadm _
      simp [hadm, hdec]
    · intro h
      rcases h with hadm | hnil2
      · simp [hadm]
      · exact absurd hnil2 hne
    · intro q hq hopen
      have hmem : (q.id, "userLeft") ∈
          ((room.filter (fun q => q.id != pid)).filter (fun q => q.wsOpen)).map
            (fun q => (q.id, "userLeft")) :=
        List.mem_map.mpr ⟨q, List.mem_filter.mpr ⟨hq, hopen⟩, rfl⟩
      cases hadm : wasAdmin with
      | true => simp only [hadm, hdec, Bool.and_self, if_pos]
                exact List.mem_append.mpr (Or.inr hmem)
      | false => simp only [hadm, Bool.false_and, Bool.false_eq_true, if_false]
                 simpa using hmem
    · intro m hm
      cases hadm : wasAdmin with
      | true =>
        rw [hadm] at hm
        simp only [hdec, Bool.and_self, if_pos] at hm
        rcases List.mem_append.mp hm with h | h
        · rw [List.mem_map] at h
          obtain ⟨q, _, hq⟩ := h
          right
          exact ⟨by rw [← hq], rfl, hne⟩
        · rw [List.mem_map] at h
          obtain ⟨q, _, hq⟩ := h
          left
          rw [← hq]
      | false =>
        rw [hadm] at hm
        simp only [Bool.false_and, Bool.false_eq_true, if_false] at hm
        simp only [List.nil_append] at hm
        rw [List.mem_map] at hm
        obtain ⟨q, _, hq⟩ := hm
        left
        rw [← hq]

/-- C9, witness: the amended theorem applied to a room where the admin
departs while Bob stays: the board is marked ended and Bob receives
userLeft. -/
theorem c9_disconnect_timer_witness :
    (fireDisconnectTimer c9wState (some c9Board) "ROOM" "a" true).board =
      some { c9Board with isEnded := true } ∧
    ("b", "userLeft") ∈ (fireDisconnectTimer c9wState (some c9Board) "ROOM" "a" true).broadcasts :=
  ⟨(c9_disconnect_timer c9wState (some c9Board) "ROOM" "a" true
      [⟨"a", "Alice", true, false⟩, ⟨"b", "Bob", false, true⟩]
      ⟨"a", "Alice", true, false⟩ (by decide) (by decide) rfl).2.2.1 rfl (by decide),
   (c9_disconnect_timer c9wState (some c9Board) "ROOM" "a" true
      [⟨"a", "Alice", true, false⟩, ⟨"b", "Bob", false, true⟩]
      ⟨"a", "Alice", true, false⟩ (by decide) (by decide) rfl).2.2.2.2.1
      ⟨"b", "Bob", false, true⟩ (by decide) rfl⟩

end Khori
